import Mathlib

/-!
Shallow embedding of the cloudnest-server node-hierarchy, sharing, search and
star controllers (src/src/controllers/file.controller.js,
search.controller.js, sharing.controller.js).

The Supabase `nodes`, `stars` and `public_links` tables are modelled as lists
of records inside a `DB` state.  Identifiers and timestamps are `Nat`; SQL
`NULL` is `Option.none`.  Each controller becomes a pure function
`DB → ... → Except ApiError result`, translated clause by clause from the
JavaScript.  Repository reads always succeed (the list is the store); the
nondeterministic collaborators (fresh row ids, random token bytes, the object
store's `sign`) are passed in as explicit arguments.
-/

namespace CloudNest

/-- One row of the `nodes` table.  Column names follow the source
(`type` is the string "file" or "folder", `path` is the storage path). -/
structure Node where
  id : Nat
  owner_id : Nat
  type : String
  name : String
  parent_id : Option Nat
  size_bytes : Option Nat
  mime_type : Option String
  path : Option String
  shared_with : Option Nat
  created_at : Nat
  updated_at : Nat
  deleted_at : Option Nat
deriving DecidableEq, Repr

/-- One row of the `stars` join table. -/
structure Star where
  id : Nat
  user_id : Nat
  file_id : Nat
deriving DecidableEq, Repr

/-- One row of the `public_links` table. -/
structure PublicLink where
  id : Nat
  node_id : Nat
  token : String
  owner_id : Nat
deriving DecidableEq, Repr

/-- The persistent store the controllers operate on. -/
structure DB where
  nodes : List Node
  stars : List Star
  links : List PublicLink
deriving DecidableEq, Repr

/-- Typed error object thrown by the controllers (utils/ApiError.js). -/
structure ApiError where
  statusCode : Nat
  errorCode : String
  message : String
deriving DecidableEq, Repr

/-- Error code of a controller result, `none` on success. -/
def errCodeOf {α : Type} : Except ApiError α → Option String
  | .error e => some e.errorCode
  | .ok _ => none

/-- Status code of a controller result, `none` on success. -/
def errStatusOf {α : Type} : Except ApiError α → Option Nat
  | .error e => some e.statusCode
  | .ok _ => none

/-- Look up a node row by primary key (`.eq("id", i).single()`). -/
def findNode (nodes : List Node) (i : Nat) : Option Node :=
  nodes.find? (fun n => n.id == i)

/-- The ids stored in a node list. -/
def idsOf (nodes : List Node) : List Nat :=
  nodes.map (·.id)

/-- Lexicographic strict order on character lists by code point, the model of
the database's ascending text ordering. -/
def lexLt : List Char → List Char → Bool
  | [], [] => false
  | [], _ :: _ => true
  | _ :: _, [] => false
  | a :: as, b :: bs =>
    if a.toNat < b.toNat then true
    else if b.toNat < a.toNat then false
    else lexLt as bs

/-- Strict text order on strings. -/
def strLt (a b : String) : Bool := lexLt a.data b.data

/-- Insert keeping earlier elements in front of later equal ones (stable). -/
def insertNode (lt : Node → Node → Bool) (x : Node) : List Node → List Node
  | [] => [x]
  | y :: ys => if lt x y then x :: y :: ys else y :: insertNode lt x ys

/-- Stable insertion sort, the model of the repository's `order(...)`. -/
def sortNodes (lt : Node → Node → Bool) : List Node → List Node
  | [] => []
  | x :: xs => insertNode lt x (sortNodes lt xs)

/-- Ordering used by `getFolderContents`: `order("type", asc)` then
`order("name", asc)`; `type` is the literal text column. -/
def contentsLt (a b : Node) : Bool :=
  if a.type = b.type then strLt a.name b.name else strLt a.type b.type

/-- Ordering used by the search queries: `order("updated_at", desc)`. -/
def updatedDescLt (a b : Node) : Bool :=
  decide (b.updated_at < a.updated_at)

/-- Substring test on character lists. -/
def hasSubstring : List Char → List Char → Bool
  | hay, needle =>
    match hay with
    | [] => needle.isEmpty
    | h :: t => needle.isPrefixOf (h :: t) || hasSubstring t needle

/-- JavaScript whitespace test for `String.prototype.trim`. -/
def isWs (c : Char) : Bool :=
  c = ' ' || c = '\t' || c = '\n' || c = '\r'

/-- `s.trim()`: strip leading and trailing whitespace (kernel-reducible
model of the JavaScript trim). -/
def jsTrim (s : String) : String :=
  ⟨((s.data.dropWhile isWs).reverse.dropWhile isWs).reverse⟩

/-- Case-insensitive substring match, the model of `name.ilike.%q%`. -/
def ilikeContains (name q : String) : Bool :=
  hasSubstring (name.data.map Char.toLower) (q.data.map Char.toLower)

/-! ### Error objects (statusCode, errorCode, message from the source) -/

def unauthorizedErr : ApiError := ⟨401, "UNAUTHORIZED", "Unauthorized"⟩

/-! ### file.controller.js : softDeleteFolder -/

/-- DELETE /folders/:id — soft delete folder.  Checks existence, type,
ownership and the `ALREADY_DELETED` guard, then stamps `deleted_at` on the
folder and on its direct children (`eq("parent_id", id)`) that are not yet
deleted.  `now` is the `new Date().toISOString()` timestamp. -/
def softDeleteFolder (db : DB) (userId : Option Nat) (id : Nat) (now : Nat) :
    Except ApiError DB :=
  match userId with
  | none => .error unauthorizedErr
  | some uid =>
    match findNode db.nodes id with
    | none => .error ⟨404, "FOLDER_NOT_FOUND", "Folder not found"⟩
    | some folder =>
      if folder.type ≠ "folder" then
        .error ⟨400, "INVALID_NODE_TYPE", "Target is not a folder"⟩
      else if folder.owner_id ≠ uid then
        .error ⟨403, "ACCESS_DENIED",
          "You do not have permission to delete this folder"⟩
      else if folder.deleted_at.isSome then
        .error ⟨400, "ALREADY_DELETED", "Folder already in trash"⟩
      else
        let nodes1 := db.nodes.map fun n =>
          if n.id = id then { n with deleted_at := some now } else n
        let nodes2 := nodes1.map fun n =>
          if n.owner_id = uid ∧ n.parent_id = some id ∧ n.deleted_at = none
          then { n with deleted_at := some now } else n
        .ok { db with nodes := nodes2 }

/-! ### file.controller.js : copyFile -/

/-- POST /files/:id/copy.  `parent_id` is the request-body target parent
(`none` when absent); `newId`/`now` stand for the repository-generated row id
and timestamps.  Returns the updated store and the inserted copy. -/
def copyFile (db : DB) (userId : Option Nat) (id : Nat)
    (parent_id : Option Nat) (newId now : Nat) :
    Except ApiError (DB × Node) :=
  match userId with
  | none => .error unauthorizedErr
  | some uid =>
    match findNode db.nodes id with
    | none => .error ⟨404, "FILE_NOT_FOUND", "File not found"⟩
    | some file =>
      if file.type ≠ "file" then
        .error ⟨400, "INVALID_NODE_TYPE", "Target is not a file"⟩
      else if file.owner_id ≠ uid then
        .error ⟨403, "ACCESS_DENIED",
          "You do not have permission to copy this file"⟩
      else
        let newFile : Node :=
          { id := newId
            owner_id := uid
            type := "file"
            name := file.name ++ "_copy"
            parent_id := match parent_id with
              | some p => some p
              | none => file.parent_id
            size_bytes := file.size_bytes
            mime_type := file.mime_type
            path := file.path
            shared_with := none
            created_at := now
            updated_at := now
            deleted_at := none }
        .ok ({ db with nodes := db.nodes ++ [newFile] }, newFile)

/-! ### file.controller.js : listFiles -/

/-- Pagination metadata block of the list responses. -/
structure Pagination where
  total : Nat
  page : Nat
  limit : Nat
  totalPages : Nat
deriving DecidableEq, Repr

/-- `Math.ceil(total / limit)` for natural `total`, positive `limit`. -/
def ceilDiv (total limit : Nat) : Nat := (total + limit - 1) / limit

/-- `parseInt(x, 10) || d`: an absent or unparsable query parameter is
modelled as `0`, which is falsy in JavaScript and falls back to the default. -/
def orDefault (n d : Nat) : Nat := if n = 0 then d else n

/-- The rows matched by the listFiles query: the requester's non-deleted
file nodes, in store order (the query specifies no ordering). -/
def ownerFiles (db : DB) (uid : Nat) : List Node :=
  db.nodes.filter fun n =>
    n.owner_id == uid && n.type == "file" && n.deleted_at == none

/-- GET /files — list the requester's non-deleted files with pagination.
`pageQ`/`limitQ` are the raw query parameters (0 = absent). -/
def listFiles (db : DB) (userId : Option Nat) (pageQ limitQ : Nat) :
    Except ApiError (List Node × Pagination) :=
  match userId with
  | none => .error unauthorizedErr
  | some uid =>
    let page := orDefault pageQ 1
    let limit := orDefault limitQ 10
    let offset := (page - 1) * limit
    let rows := ownerFiles db uid
    let files := (rows.drop offset).take limit
    .ok (files,
      { total := rows.length
        page := page
        limit := limit
        totalPages := ceilDiv rows.length limit })

/-! ### file.controller.js : getFolderContents -/

/-- GET /folders/:id/contents.  `parentId = none` models the "root"/"null"
path parameter.  Children are the non-deleted nodes with the given owner and
parent, ordered by `type` ascending then `name` ascending. -/
def getFolderContents (db : DB) (userId : Option Nat)
    (parentId : Option Nat) : Except ApiError (Option Nat × List Node) :=
  match userId with
  | none => .error unauthorizedErr
  | some uid =>
    let validate : Except ApiError Unit :=
      match parentId with
      | none => .ok ()
      | some pid =>
        match findNode db.nodes pid with
        | none => .error ⟨404, "FOLDER_NOT_FOUND", "Folder not found"⟩
        | some folder =>
          if folder.type ≠ "folder" then
            .error ⟨400, "INVALID_NODE_TYPE", "Target is not a folder"⟩
          else if folder.owner_id ≠ uid then
            .error ⟨403, "ACCESS_DENIED",
              "You do not have access to this folder"⟩
          else .ok ()
    match validate with
    | .error e => .error e
    | .ok _ =>
      let contents := db.nodes.filter fun n =>
        n.owner_id == uid && n.parent_id == parentId && n.deleted_at == none
      .ok (parentId, sortNodes contentsLt contents)

/-! ### search.controller.js : searchNodes -/

/-- Type filter of the search query: `eq("type", t)` is added only when the
parameter is literally "file" or "folder". -/
def searchTypeOk (ty : Option String) (n : Node) : Bool :=
  match ty with
  | some t => if t = "file" || t = "folder" then n.type == t else true
  | none => true

/-- GET /search.  The base query is the disjunction
`or(name.ilike.%q%, owner_id.eq.uid, shared_with.eq.uid)` restricted to
non-deleted rows and the optional type filter, ordered by `updated_at`
descending; afterwards the handler keeps only rows owned by the requester. -/
def searchNodes (db : DB) (userId : Option Nat) (q : String)
    (ty : Option String) : Except ApiError (List Node) :=
  match userId with
  | none => .error unauthorizedErr
  | some uid =>
    if jsTrim q = "" then
      .error ⟨422, "VALIDATION_ERROR", "Search query is required"⟩
    else
      let base := db.nodes.filter fun n =>
        (ilikeContains n.name q || n.owner_id == uid ||
            n.shared_with == some uid) &&
          n.deleted_at == none && searchTypeOk ty n
      let ordered := sortNodes updatedDescLt base
      .ok (ordered.filter fun n => n.owner_id == uid)

/-! ### search.controller.js : markFileAsStarred / removeFileFromStarred -/

/-- The star rows of one (account, file) pair. -/
def pairStars (db : DB) (uid fileId : Nat) : List Star :=
  db.stars.filter fun s => s.user_id == uid && s.file_id == fileId

/-- Shared precondition of both star handlers: the node exists, is not
soft-deleted and is a file. -/
def starFileGuard (db : DB) (fileId : Nat) : Except ApiError Node :=
  match findNode db.nodes fileId with
  | none => .error ⟨404, "FILE_NOT_FOUND", "File not found"⟩
  | some file =>
    if file.deleted_at.isSome then
      .error ⟨404, "FILE_NOT_FOUND", "File not found"⟩
    else if file.type ≠ "file" then
      .error ⟨400, "INVALID_NODE_TYPE", "Target is not a file"⟩
    else .ok file

/-- POST /files/:id/star.  The `.single()` lookup on `stars` yields a row
exactly when the pair has one matching row; otherwise the handler inserts a
fresh row (`newStarId`).  Returns the store and the HTTP status (200 for the
already-starred no-op, 201 for a new row). -/
def markFileAsStarred (db : DB) (userId : Option Nat) (fileId newStarId : Nat) :
    Except ApiError (DB × Nat) :=
  match userId with
  | none => .error unauthorizedErr
  | some uid =>
    match starFileGuard db fileId with
    | .error e => .error e
    | .ok _ =>
      match pairStars db uid fileId with
      | [_] => .ok (db, 200)
      | _ =>
        .ok ({ db with stars := db.stars ++ [⟨newStarId, uid, fileId⟩] }, 201)

/-- DELETE /files/:id/star.  Unstarring a file with no star row is a 200
no-op; otherwise the row found by `.single()` is deleted by its id. -/
def removeFileFromStarred (db : DB) (userId : Option Nat) (fileId : Nat) :
    Except ApiError (DB × Nat) :=
  match userId with
  | none => .error unauthorizedErr
  | some uid =>
    match starFileGuard db fileId with
    | .error e => .error e
    | .ok _ =>
      match pairStars db uid fileId with
      | [s] =>
        .ok ({ db with stars := db.stars.filter fun r => r.id ≠ s.id }, 200)
      | _ => .ok (db, 200)

/-! ### sharing.controller.js : generatePublicLink -/

/-- One hexadecimal digit, lowercase as in Node's `toString("hex")`. -/
def hexDigit (n : Nat) : Char :=
  if n < 10 then Char.ofNat (48 + n) else Char.ofNat (87 + n)

/-- The two hex characters of one byte. -/
def hexByte (b : Nat) : List Char := [hexDigit (b / 16), hexDigit (b % 16)]

/-- `Buffer.toString("hex")` over a byte sequence. -/
def hexEncode (bytes : List Nat) : String := ⟨(bytes.map hexByte).flatten⟩

/-- The token minted by `crypto.randomBytes(16).toString("hex")`, with the 16
random bytes passed in as `entropy`. -/
def mintToken (entropy : List Nat) : String := hexEncode entropy

/-- The link rows of one node (`eq("node_id", id)`). -/
def nodeLinks (db : DB) (id : Nat) : List PublicLink :=
  db.links.filter fun l => l.node_id == id

/-- POST /files/:id/public-link.  If the `.single()` lookup finds the node's
link row it is returned unchanged (HTTP 200); otherwise a token is minted
from `entropy` and persisted as a new row `newLinkId` (HTTP 201).  Returns
the store, the token handed to the client, and the status code. -/
def generatePublicLink (db : DB) (userId : Option Nat) (id : Nat)
    (entropy : List Nat) (newLinkId : Nat) :
    Except ApiError (DB × String × Nat) :=
  match userId with
  | none => .error unauthorizedErr
  | some uid =>
    match findNode db.nodes id with
    | none => .error ⟨404, "FILE_NOT_FOUND", "File not found"⟩
    | some file =>
      if file.type ≠ "file" then
        .error ⟨400, "INVALID_NODE_TYPE", "Target is not a file"⟩
      else if file.owner_id ≠ uid then
        .error ⟨403, "ACCESS_DENIED",
          "You cannot generate public links for this file"⟩
      else
        match nodeLinks db id with
        | [l] => .ok (db, l.token, 200)
        | _ =>
          let token := mintToken entropy
          .ok ({ db with links := db.links ++ [⟨newLinkId, id, token, uid⟩] },
            token, 201)

/-! ### sharing.controller.js : accessPublicResource -/

/-- Successful payload of GET /public/:token. -/
structure PublicResource where
  node : Node
  token : String
  downloadUrl : Option String
deriving DecidableEq, Repr

/-- GET /public/:token.  `sign key ttl` models
`supabase.storage.from("files").createSignedUrl(key, ttl)`; a `none` result
(signing failure) is swallowed and leaves `downloadUrl` null. -/
def accessPublicResource (db : DB) (token : String)
    (sign : String → Nat → Option String) : Except ApiError PublicResource :=
  if jsTrim token = "" then
    .error ⟨400, "VALIDATION_ERROR", "Token is required"⟩
  else
    match db.links.filter (fun l => l.token == token) with
    | [publicLink] =>
      match findNode db.nodes publicLink.node_id with
      | some node =>
        if node.deleted_at = none then
          let signedUrl : Option String :=
            if node.type = "file" then
              match node.path with
              | some p => sign p (60 * 60)
              | none => none
            else none
          .ok ⟨node, publicLink.token, signedUrl⟩
        else
          .error ⟨404, "RESOURCE_NOT_FOUND", "Shared resource not found"⟩
      | none => .error ⟨404, "RESOURCE_NOT_FOUND", "Shared resource not found"⟩
    | _ => .error ⟨404, "LINK_NOT_FOUND", "Invalid or expired public link"⟩

/-! ### file.controller.js : createFolder and moveFolder -/

/-- POST /folders.  The parent id is stored as given (`parent_id || null`);
the source performs no validation that it references anything.  `newId`/`now`
stand for the repository-generated row id and timestamps. -/
def createFolder (db : DB) (userId : Option Nat) (name : String)
    (parent_id : Option Nat) (newId now : Nat) :
    Except ApiError (DB × Node) :=
  match userId with
  | none => .error unauthorizedErr
  | some uid =>
    if jsTrim name = "" then
      .error ⟨422, "VALIDATION_ERROR", "Folder name is required"⟩
    else
      let node : Node :=
        { id := newId
          owner_id := uid
          type := "folder"
          name := jsTrim name
          parent_id := parent_id
          size_bytes := none
          mime_type := none
          path := none
          shared_with := none
          created_at := now
          updated_at := now
          deleted_at := none }
      .ok ({ db with nodes := db.nodes ++ [node] }, node)

/-- The recursive `checkCircular` of moveFolder: does `targetId` occur in the
subtree below `folderId`, following `parent_id` links inside `nodes`?  The
JavaScript recursion is unbounded; here it carries fuel, and moveFolder calls
it with `nodes.length`, which explores every simple child chain (on the
acyclic states all theorems below are about, the two agree). -/
def checkCircular (nodes : List Node) : Nat → Nat → Nat → Bool
  | 0, _, _ => false
  | fuel + 1, folderId, targetId =>
    nodes.any fun n =>
      n.parent_id == some folderId &&
        (n.id == targetId || checkCircular nodes fuel n.id targetId)

/-- The reparenting update of moveFolder: set the parent of the row with the
given id (and its `updated_at`), leaving every other row unchanged. -/
def reparent (nodes : List Node) (id target now : Nat) : List Node :=
  nodes.map fun n =>
    if n.id = id then { n with parent_id := some target, updated_at := now }
    else n

/-- POST /folders/:id/move, translated check by check from the source:
unauthorized, missing target id, folder lookup/type/ownership, target
lookup/type/ownership, the self-move guard, the cycle check over all of the
requester's rows, then the reparenting update. -/
def moveFolder (db : DB) (userId : Option Nat) (id : Nat)
    (target_folder_id : Option Nat) (now : Nat) : Except ApiError DB :=
  match userId with
  | none => .error unauthorizedErr
  | some uid =>
    match target_folder_id with
    | none => .error ⟨422, "VALIDATION_ERROR", "Target folder ID is required"⟩
    | some target =>
      match findNode db.nodes id with
      | none => .error ⟨404, "FOLDER_NOT_FOUND", "Folder not found"⟩
      | some folder =>
        if folder.type ≠ "folder" then
          .error ⟨400, "INVALID_NODE_TYPE", "Target is not a folder"⟩
        else if folder.owner_id ≠ uid then
          .error ⟨403, "ACCESS_DENIED",
            "You do not have permission to move this folder"⟩
        else
          match findNode db.nodes target with
          | none =>
            .error ⟨404, "TARGET_FOLDER_NOT_FOUND", "Target folder not found"⟩
          | some targetFolder =>
            if targetFolder.type ≠ "folder" then
              .error ⟨400, "INVALID_TARGET", "Target node is not a folder"⟩
            else if targetFolder.owner_id ≠ uid then
              .error ⟨403, "ACCESS_DENIED",
                "You do not have permission to move folders here"⟩
            else if id = target then
              .error ⟨400, "INVALID_MOVE", "Cannot move a folder into itself"⟩
            else
              let childNodes := db.nodes.filter fun n => n.owner_id == uid
              if checkCircular childNodes childNodes.length id target then
                .error ⟨400, "INVALID_MOVE",
                  "Cannot move a folder inside its own subfolder"⟩
              else
                .ok { db with nodes := reparent db.nodes id target now }

/-! ### Parent-chain walks: termination of the hierarchy -/

/-- The ids visited when following `parent_id` links upward from `p`, with at
most `fuel` lookups; `none` when the fuel runs out or a link dangles. -/
def walkIds (nodes : List Node) : Nat → Option Nat → Option (List Nat)
  | _, none => some []
  | 0, some _ => none
  | fuel + 1, some p =>
    match findNode nodes p with
    | none => none
    | some m => (walkIds nodes fuel m.parent_id).map (fun L => p :: L)

/-- The parent chain starting at `p` reaches the null root within `fuel`
steps. -/
def reachesRoot (nodes : List Node) (fuel : Nat) (p : Option Nat) : Bool :=
  (walkIds nodes fuel p).isSome

/-- `des` lies strictly below `anc`: `anc` occurs on the parent chain of
`des` (computed with node-count fuel, enough on every terminating state). -/
def isDescendant (nodes : List Node) (anc des : Nat) : Bool :=
  match findNode nodes des with
  | none => false
  | some d =>
    match walkIds nodes nodes.length d.parent_id with
    | none => false
    | some L => L.contains anc

/-- The acyclicity property of the claim: node ids are unique (the table's
primary key) and every node's parent chain terminates at the null root
within a number of steps bounded by the total node count. -/
def Terminating (db : DB) : Prop :=
  (idsOf db.nodes).Nodup ∧
  ∀ n ∈ db.nodes, reachesRoot db.nodes db.nodes.length n.parent_id = true

/-- Ownership closure, the data-model invariant of the spec: every non-null
`parent_id` references an existing node of the same owner. -/
def OwnerClosed (db : DB) : Prop :=
  ∀ n ∈ db.nodes, ∀ p, n.parent_id = some p →
    ∃ m ∈ db.nodes, m.id = p ∧ m.owner_id = n.owner_id

/-- Well-formed store: terminating parent chains plus ownership closure. -/
def WF (db : DB) : Prop := Terminating db ∧ OwnerClosed db

instance (db : DB) : Decidable (Terminating db) := by
  unfold Terminating; infer_instance

instance (db : DB) : Decidable (OwnerClosed db) := by
  unfold OwnerClosed; infer_instance

instance (db : DB) : Decidable (WF db) := by
  unfold WF; infer_instance

/-- One hierarchy-shaping request: a folder create or a folder move. -/
inductive HOp where
  | create (userId : Option Nat) (name : String) (parent : Option Nat)
      (newId : Nat) (now : Nat)
  | move (userId : Option Nat) (id : Nat) (target : Option Nat) (now : Nat)

/-- Apply one request; a failed request leaves the store unchanged (all
errors are thrown before any write). -/
def applyHOp (db : DB) : HOp → DB
  | .create u nm p i t =>
    match createFolder db u nm p i t with
    | .ok r => r.1
    | .error _ => db
  | .move u i tg t =>
    match moveFolder db u i tg t with
    | .ok db' => db'
    | .error _ => db

/-- Apply a sequence of requests in order. -/
def applyHOps (db : DB) : List HOp → DB
  | [] => db
  | op :: ops => applyHOps (applyHOp db op) ops

/-- Caller discipline for a create: the generated row id is fresh and a
supplied parent id resolves to a folder owned by the creator (the spec's
contract for `createFolder`, which the handler itself does not check).
Moves carry no side condition. -/
def GoodHOp (db : DB) : HOp → Prop
  | .create userId _ parent newId _ =>
    ∀ uid, userId = some uid →
      newId ∉ idsOf db.nodes ∧
      ∀ p, parent = some p →
        ∃ m ∈ db.nodes, m.id = p ∧ m.owner_id = uid ∧ m.type = "folder"
  | .move _ _ _ _ => True

/-- Every request of the sequence satisfies the caller discipline in the
store it executes against. -/
def GoodHOps (db : DB) : List HOp → Prop
  | [] => True
  | op :: ops => GoodHOp db op ∧ GoodHOps (applyHOp db op) ops

instance {ε α : Type} [DecidableEq ε] [DecidableEq α] : DecidableEq (Except ε α)
  | .ok a, .ok b =>
    if h : a = b then .isTrue (by rw [h])
    else .isFalse (by intro hc; cases hc; exact h rfl)
  | .error a, .error b =>
    if h : a = b then .isTrue (by rw [h])
    else .isFalse (by intro hc; cases hc; exact h rfl)
  | .ok _, .error _ => .isFalse (by intro hc; cases hc)
  | .error _, .ok _ => .isFalse (by intro hc; cases hc)

/-! ### Concrete sample stores used by the counterexample and witness
theorems -/

/-- A default node record; sample states override the relevant fields. -/
def baseNode : Node :=
  { id := 0, owner_id := 0, type := "file", name := "", parent_id := none,
    size_bytes := none, mime_type := none, path := none, shared_with := none,
    created_at := 0, updated_at := 0, deleted_at := none }

/-- Sample folder F (id 10, account 1). -/
def folderF : Node :=
  { baseNode with id := 10, owner_id := 1, type := "folder", name := "F" }

/-- Sample folder A (id 11), child of F. -/
def folderA : Node :=
  { baseNode with
    id := 11, owner_id := 1, type := "folder", name := "A",
    parent_id := some 10 }

/-- Sample file B (id 12), child of A, hence grandchild of F. -/
def fileB : Node :=
  { baseNode with
    id := 12, owner_id := 1, type := "file", name := "B",
    parent_id := some 11 }

/-- Folder 10 with child folder 11 and grandchild file 12, all owned by
account 1 and live. -/
def trashDb : DB := ⟨[folderF, folderA, fileB], [], []⟩

/-- The store `softDeleteFolder trashDb (some 1) 10 77` produces: F and A
are stamped, the grandchild B is not. -/
def trashDbAfter : DB :=
  ⟨[{ folderF with deleted_at := some 77 },
    { folderA with deleted_at := some 77 }, fileB], [], []⟩

/-- Sample live file named "report" owned by account 1. -/
def reportNode : Node :=
  { baseNode with
    id := 1, owner_id := 1, type := "file", name := "report",
    updated_at := 5 }

/-- Account 1 owns one live file named "report". -/
def searchDb : DB := ⟨[reportNode], [], []⟩

/-- Sample file "alpha.txt" inside folder 1. -/
def alphaFile : Node :=
  { baseNode with
    id := 2, owner_id := 1, type := "file",
    name := "alpha.txt", parent_id := some 1 }

/-- Sample subfolder "beta" inside folder 1. -/
def betaFolder : Node :=
  { baseNode with
    id := 3, owner_id := 1, type := "folder", name := "beta",
    parent_id := some 1 }

/-- Folder 1 of account 1 containing file "alpha.txt" and subfolder "beta". -/
def contentsDb : DB :=
  ⟨[{ baseNode with id := 1, owner_id := 1, type := "folder", name := "top" },
    alphaFile, betaFolder], [], []⟩

/-- Acyclic store whose parent chains cross owners: account 1's folder H (3)
sits below account 2's folder G (2), which sits below account 1's folder
F (1).  Reachable through `createFolder`, which never validates `parent_id`. -/
def crossF : Node :=
  { baseNode with id := 1, owner_id := 1, type := "folder", name := "F" }

/-- Folder of account 2 sitting (via an unvalidated create) under account
1's folder F. -/
def crossG : Node :=
  { baseNode with
    id := 2, owner_id := 2, type := "folder", name := "G",
    parent_id := some 1 }

/-- Folder of account 1 sitting under account 2's folder G. -/
def crossH : Node :=
  { baseNode with
    id := 3, owner_id := 1, type := "folder", name := "H",
    parent_id := some 2 }

def crossDb : DB := ⟨[crossF, crossG, crossH], [], []⟩

/-- The store after `moveFolder crossDb (some 1) 1 (some 3) 99`: F now hangs
below H, closing the cycle F → H → G → F. -/
def crossDbMoved : DB :=
  ⟨[{ crossF with parent_id := some 3, updated_at := 99 }, crossG,
    crossH], [], []⟩

/-- Two-folder store of account 1: folder A (2) inside folder F (1). -/
def pairF : Node :=
  { baseNode with id := 1, owner_id := 1, type := "folder", name := "F" }

/-- Child folder of `pairF`. -/
def pairA : Node :=
  { baseNode with
    id := 2, owner_id := 1, type := "folder", name := "A",
    parent_id := some 1 }

def pairDb : DB := ⟨[pairF, pairA], [], []⟩

/-- A valid create followed by a (rejected) cyclic move on `pairDb`. -/
def pairOps : List HOp :=
  [HOp.create (some 1) "c" (some 2) 3 5, HOp.move (some 1) 1 (some 2) 6]

/-! ## Claim theorems -/

/-- Claim C1, behaviour of the code at the failing input: in `trashDb` the
file 12 is a live descendant (grandchild) of folder 10 at delete time, yet
`softDeleteFolder` stamps only folder 10 and its direct child 11 and leaves
node 12 `ACTIVE` — the cascade is one level deep, not "every descendant at
any depth" as the claim and the source's own comment ("recursive effect")
state. -/
theorem softDeleteFolder_misses_grandchild :
    softDeleteFolder trashDb (some 1) 10 77 = .ok trashDbAfter ∧
    isDescendant trashDb.nodes 10 12 = true ∧
    (∃ n ∈ trashDb.nodes, n.id = 12 ∧ n.deleted_at = none) ∧
    (∃ n ∈ trashDbAfter.nodes, n.id = 10 ∧ n.deleted_at = some 77) ∧
    (∃ n ∈ trashDbAfter.nodes, n.id = 11 ∧ n.deleted_at = some 77) ∧
    (∃ n ∈ trashDbAfter.nodes, n.id = 12 ∧ n.deleted_at = none) := by
  decide

/-- Claim C3, behaviour of the code at the failing input: the search query's
`or(name.ilike.%q%, owner_id.eq.uid, shared_with.eq.uid)` disjunction lets
every non-deleted owned row through whether or not its name matches, so
searching for "xyz" returns the owned file "report" even though "report"
does not contain "xyz". -/
theorem searchNodes_returns_nonmatching_owned_node :
    ilikeContains reportNode.name "xyz" = false ∧
    reportNode.owner_id = 1 ∧ reportNode.deleted_at = none ∧
    searchNodes searchDb (some 1) "xyz" none = .ok [reportNode] := by
  decide

/-- Claim C4, behaviour of the code at the failing input: `getFolderContents`
orders by the text column `type` ascending, and "file" < "folder" in text
order, so the file "alpha.txt" is listed before the folder "beta" — files
come first, contradicting the claimed (and source-commented) folders-first
order. -/
theorem getFolderContents_lists_files_first :
    alphaFile.type = "file" ∧ betaFolder.type = "folder" ∧
    strLt "file" "folder" = true ∧
    getFolderContents contentsDb (some 1) (some 1) =
      .ok (some 1, [alphaFile, betaFolder]) := by
  decide

/-- Claim C7: copying an owned file appends exactly one new FILE node with a
fresh id, name `<original>_copy`, the same `path` (storage path),
`size_bytes` and `mime_type` as the source, and parent equal to the supplied
target parent or, when none is given, the source's parent; every
pre-existing row — the source included — is unchanged. -/
theorem copyFile_reference_copy (db : DB) (uid id : Nat) (pid : Option Nat)
    (newId now : Nat) (file : Node)
    (hf : findNode db.nodes id = some file) (hty : file.type = "file")
    (hown : file.owner_id = uid) (hfresh : newId ∉ idsOf db.nodes) :
    ∃ c, copyFile db (some uid) id pid newId now =
        .ok ({ db with nodes := db.nodes ++ [c] }, c) ∧
      c.type = "file" ∧ c.id = newId ∧ c.id ∉ idsOf db.nodes ∧
      c.name = file.name ++ "_copy" ∧ c.path = file.path ∧
      c.size_bytes = file.size_bytes ∧ c.mime_type = file.mime_type ∧
      c.parent_id =
        (match pid with | some p => some p | none => file.parent_id) := by
  refine ⟨{ id := newId, owner_id := uid, type := "file",
            name := file.name ++ "_copy",
            parent_id := match pid with
              | some p => some p
              | none => file.parent_id,
            size_bytes := file.size_bytes, mime_type := file.mime_type,
            path := file.path, shared_with := none, created_at := now,
            updated_at := now, deleted_at := none },
    ?_, rfl, rfl, hfresh, rfl, rfl, rfl, rfl, rfl⟩
  simp [copyFile, hf, hty, hown]

/-- Concrete instance of `copyFile_reference_copy`: copying file 2 of
`contentsDb` into no explicit parent with fresh id 9. -/
theorem copyFile_reference_copy_witness :
    findNode contentsDb.nodes 2 = some alphaFile ∧ alphaFile.type = "file" ∧
    alphaFile.owner_id = 1 ∧ (9 : Nat) ∉ idsOf contentsDb.nodes ∧
    ∃ c, copyFile contentsDb (some 1) 2 none 9 50 =
        .ok ({ contentsDb with nodes := contentsDb.nodes ++ [c] }, c) ∧
      c.type = "file" ∧ c.id = 9 ∧ c.id ∉ idsOf contentsDb.nodes ∧
      c.name = alphaFile.name ++ "_copy" ∧ c.path = alphaFile.path ∧
      c.size_bytes = alphaFile.size_bytes ∧
      c.mime_type = alphaFile.mime_type ∧
      c.parent_id =
        (match (none : Option Nat) with
         | some p => some p
         | none => alphaFile.parent_id) :=
  ⟨by decide, by decide, by decide, by decide,
    copyFile_reference_copy contentsDb 1 2 none 9 50 alphaFile (by decide)
      (by decide) (by decide) (by decide)⟩

/-- Claim C10: `copyFile` performs no validation of the requested target
parent: for any owned file and any `p` whatsoever — with no requirement that
`p` references an existing node, a folder, or a node of the same owner — the
copy succeeds and is stored with `parent_id = p`. -/
theorem copyFile_accepts_any_parent (db : DB) (uid id p newId now : Nat)
    (file : Node) (hf : findNode db.nodes id = some file)
    (hty : file.type = "file") (hown : file.owner_id = uid) :
    ∃ c, copyFile db (some uid) id (some p) newId now =
        .ok ({ db with nodes := db.nodes ++ [c] }, c) ∧
      c.parent_id = some p := by
  refine ⟨{ id := newId, owner_id := uid, type := "file",
            name := file.name ++ "_copy", parent_id := some p,
            size_bytes := file.size_bytes, mime_type := file.mime_type,
            path := file.path, shared_with := none, created_at := now,
            updated_at := now, deleted_at := none },
    ?_, rfl⟩
  simp [copyFile, hf, hty, hown]

/-- Concrete instance of `copyFile_accepts_any_parent`: the requested parent
999 references no row of `contentsDb` at all, yet the copy is stored under
it. -/
theorem copyFile_accepts_any_parent_witness :
    findNode contentsDb.nodes 2 = some alphaFile ∧ alphaFile.type = "file" ∧
    alphaFile.owner_id = 1 ∧ (∀ m ∈ contentsDb.nodes, ¬ m.id = 999) ∧
    ∃ c, copyFile contentsDb (some 1) 2 (some 999) 9 50 =
        .ok ({ contentsDb with nodes := contentsDb.nodes ++ [c] }, c) ∧
      c.parent_id = some 999 :=
  ⟨by decide, by decide, by decide, by decide,
    copyFile_accepts_any_parent contentsDb 1 2 999 9 50 alphaFile (by decide)
      (by decide) (by decide)⟩

/-- `orDefault` always returns a positive value for a positive default. -/
theorem orDefault_pos (n d : Nat) (hd : 0 < d) : 0 < orDefault n d := by
  unfold orDefault
  split
  · exact hd
  · omega

/-- Requesting a page past the last one leaves nothing after the skip. -/
theorem ceilDiv_lt_imp (t l page : Nat) (hl : 0 < l)
    (h : ceilDiv t l < page) : t ≤ (page - 1) * l := by
  unfold ceilDiv at h
  have h2 : t + l - 1 < page * l := (Nat.div_lt_iff_lt_mul hl).1 h
  have h3 : (page - 1) * l = page * l - l := by
    rw [Nat.sub_mul, Nat.one_mul]
  omega

/-- Claim C8: the paginated file listing succeeds with exactly the window
`drop ((page-1)*limit) |> take limit` of the requester's non-deleted files
(page and limit defaulting to 1 and 10), hence at most `limit` rows;
the metadata satisfies `totalPages = ceil(total/limit)`; and a page beyond
`totalPages` yields a successful response with an empty list. -/
theorem listFiles_pagination_spec (db : DB) (uid pageQ limitQ : Nat) :
    ∃ files pag,
      listFiles db (some uid) pageQ limitQ = .ok (files, pag) ∧
      pag.page = orDefault pageQ 1 ∧ pag.limit = orDefault limitQ 10 ∧
      pag.total = (ownerFiles db uid).length ∧
      pag.totalPages = ceilDiv pag.total pag.limit ∧
      files =
        ((ownerFiles db uid).drop ((pag.page - 1) * pag.limit)).take
          pag.limit ∧
      files.length ≤ pag.limit ∧
      (pag.totalPages < pag.page → files = []) := by
  refine ⟨_, _, rfl, rfl, rfl, rfl, rfl, rfl, List.length_take_le _ _, ?_⟩
  intro h
  have hl : 0 < orDefault limitQ 10 := orDefault_pos _ _ (by omega)
  have hle := ceilDiv_lt_imp (ownerFiles db uid).length (orDefault limitQ 10)
    (orDefault pageQ 1) hl h
  rw [List.drop_eq_nil_of_le hle]
  exact List.take_nil

/-- Concrete instance of `listFiles_pagination_spec`: page 5 of a one-file
store at limit 2 is past `totalPages = 1` and comes back empty. -/
theorem listFiles_pagination_witness :
    ∃ files pag,
      listFiles searchDb (some 1) 5 2 = .ok (files, pag) ∧
      pag.page = orDefault 5 1 ∧ pag.limit = orDefault 2 10 ∧
      pag.total = (ownerFiles searchDb 1).length ∧
      pag.totalPages = ceilDiv pag.total pag.limit ∧
      files =
        ((ownerFiles searchDb 1).drop ((pag.page - 1) * pag.limit)).take
          pag.limit ∧
      files.length ≤ pag.limit ∧
      (pag.totalPages < pag.page → files = []) :=
  listFiles_pagination_spec searchDb 1 5 2

/-- A lowercase hexadecimal digit. -/
def isHexDigitChar (c : Char) : Bool :=
  (decide ('0' ≤ c) && decide (c ≤ '9')) ||
    (decide ('a' ≤ c) && decide (c ≤ 'f'))

/-- Each of the sixteen digit characters is a hexadecimal character. -/
theorem hexDigit_hex : ∀ n < 16, isHexDigitChar (hexDigit n) = true := by
  decide

/-- Both hex digits of a byte below 256 are hexadecimal characters. -/
theorem hexByte_chars (b : Nat) (hb : b < 256) :
    ∀ c ∈ hexByte b, isHexDigitChar c = true := by
  intro c hc
  simp only [hexByte, List.mem_cons, List.not_mem_nil, or_false] at hc
  rcases hc with rfl | rfl
  · exact hexDigit_hex _ (Nat.div_lt_of_lt_mul (by omega))
  · exact hexDigit_hex _ (Nat.mod_lt _ (by omega))

/-- A hex-encoded byte list yields two characters per byte. -/
theorem hexEncode_data_length (bs : List Nat) :
    (hexEncode bs).data.length = 2 * bs.length := by
  induction bs with
  | nil => rfl
  | cons b bs ih =>
    simp only [hexEncode, List.map_cons, List.flatten_cons,
      List.length_append] at ih ⊢
    simp only [hexByte, List.length_cons, List.length_nil]
    omega

/-- Every character of a hex-encoded byte list (bytes below 256) is a
hexadecimal character. -/
theorem hexEncode_chars (bs : List Nat) (hb : ∀ b ∈ bs, b < 256) :
    ∀ c ∈ (hexEncode bs).data, isHexDigitChar c = true := by
  intro c hc
  simp only [hexEncode, List.mem_flatten, List.mem_map] at hc
  obtain ⟨l, ⟨b, hbmem, rfl⟩, hcl⟩ := hc
  exact hexByte_chars b (hb b hbmem) c hcl

/-- Claim C5: `generatePublicLink` is idempotent by lookup.  When the node
already has a link row, that row's token is returned unchanged and nothing
is inserted.  From a link-free store, the first call mints the hex encoding
of the 16 supplied random bytes — a 128-bit token of 32 hexadecimal
characters — and persists exactly one new row carrying it; a second call on
the resulting store returns the very same token and changes nothing, so two
consecutive calls return the same token both times. -/
theorem generatePublicLink_idempotent (db : DB)
    (uid id newLinkId1 newLinkId2 : Nat) (entropy e2 : List Nat)
    (file : Node) (hf : findNode db.nodes id = some file)
    (hty : file.type = "file") (hown : file.owner_id = uid)
    (hlen : entropy.length = 16) (hbytes : ∀ b ∈ entropy, b < 256) :
    (∀ l, nodeLinks db id = [l] →
      generatePublicLink db (some uid) id entropy newLinkId1 =
        .ok (db, l.token, 200)) ∧
    (nodeLinks db id = [] →
      ∃ db1,
        generatePublicLink db (some uid) id entropy newLinkId1 =
          .ok (db1, mintToken entropy, 201) ∧
        db1.nodes = db.nodes ∧ db1.stars = db.stars ∧
        db1.links =
          db.links ++ [⟨newLinkId1, id, mintToken entropy, uid⟩] ∧
        (mintToken entropy).data.length = 32 ∧
        (∀ c ∈ (mintToken entropy).data, isHexDigitChar c = true) ∧
        generatePublicLink db1 (some uid) id e2 newLinkId2 =
          .ok (db1, mintToken entropy, 200)) := by
  constructor
  · intro l hl
    simp [generatePublicLink, hf, hty, hown, hl]
  · intro hnone
    have hlinks :
        nodeLinks
          { db with links :=
              db.links ++ [⟨newLinkId1, id, mintToken entropy, uid⟩] } id =
          [⟨newLinkId1, id, mintToken entropy, uid⟩] := by
      unfold nodeLinks at hnone ⊢
      simp only [List.filter_append, hnone, List.nil_append]
      simp
    refine ⟨{ db with links :=
        db.links ++ [⟨newLinkId1, id, mintToken entropy, uid⟩] },
      ?_, rfl, rfl, rfl, ?_, ?_, ?_⟩
    · simp [generatePublicLink, hf, hty, hown, hnone]
    · rw [mintToken, hexEncode_data_length, hlen]
    · exact hexEncode_chars entropy hbytes
    · simp [generatePublicLink, hf, hty, hown, hlinks]

/-- Concrete byte sequence standing for `crypto.randomBytes(16)`. -/
def entropyA : List Nat :=
  [0, 1, 2, 3, 4, 5, 6, 7, 8, 9, 10, 11, 12, 13, 14, 15]

/-- Concrete instance of `generatePublicLink_idempotent` on the one-file
store: mint then re-read the same token. -/
theorem generatePublicLink_idempotent_witness :
    findNode searchDb.nodes 1 = some reportNode ∧
    reportNode.type = "file" ∧ reportNode.owner_id = 1 ∧
    entropyA.length = 16 ∧ (∀ b ∈ entropyA, b < 256) ∧
    nodeLinks searchDb 1 = [] ∧
    ∃ db1,
      generatePublicLink searchDb (some 1) 1 entropyA 7 =
        .ok (db1, mintToken entropyA, 201) ∧
      db1.nodes = searchDb.nodes ∧ db1.stars = searchDb.stars ∧
      db1.links = searchDb.links ++ [⟨7, 1, mintToken entropyA, 1⟩] ∧
      (mintToken entropyA).data.length = 32 ∧
      (∀ c ∈ (mintToken entropyA).data, isHexDigitChar c = true) ∧
      generatePublicLink db1 (some 1) 1 [9, 9] 8 =
        .ok (db1, mintToken entropyA, 200) :=
  ⟨by decide, by decide, by decide, by decide, by decide, by decide,
    (generatePublicLink_idempotent searchDb 1 1 7 8 entropyA [9, 9]
        reportNode (by decide) (by decide) (by decide) (by decide)
        (by decide)).2 (by decide)⟩

/-- Claim C9: starring is idempotent and unstarring is total on the success
side.  For an existing, non-deleted file: from a state with no star row for
the pair, the first star succeeds (201) inserting exactly one join row, and
an immediate second star succeeds (200) changing nothing, leaving exactly
one row; unstarring a file the account has not starred succeeds (200) and
deletes nothing. -/
theorem star_idempotent_unstar_total :
    (∀ db uid fid sid1 sid2 (file : Node),
      findNode db.nodes fid = some file → file.type = "file" →
      file.deleted_at = none → pairStars db uid fid = [] →
      ∃ db1 s,
        markFileAsStarred db (some uid) fid sid1 = .ok (db1, 201) ∧
        db1.nodes = db.nodes ∧ db1.links = db.links ∧
        db1.stars = db.stars ++ [s] ∧ s.user_id = uid ∧ s.file_id = fid ∧
        pairStars db1 uid fid = [s] ∧
        markFileAsStarred db1 (some uid) fid sid2 = .ok (db1, 200)) ∧
    (∀ db uid fid (file : Node),
      findNode db.nodes fid = some file → file.type = "file" →
      file.deleted_at = none → pairStars db uid fid = [] →
      removeFileFromStarred db (some uid) fid = .ok (db, 200)) := by
  constructor
  · intro db uid fid sid1 sid2 file hf hty hdel hnone
    have hpair :
        pairStars { db with stars := db.stars ++ [⟨sid1, uid, fid⟩] } uid
          fid = [⟨sid1, uid, fid⟩] := by
      unfold pairStars at hnone ⊢
      simp only [List.filter_append, hnone, List.nil_append]
      simp
    refine ⟨{ db with stars := db.stars ++ [⟨sid1, uid, fid⟩] },
      ⟨sid1, uid, fid⟩, ?_, rfl, rfl, rfl, rfl, rfl, hpair, ?_⟩
    · simp [markFileAsStarred, starFileGuard, hf, hty, hdel, hnone]
    · simp [markFileAsStarred, starFileGuard, hf, hty, hdel, hpair]
  · intro db uid fid file hf hty hdel hnone
    simp [removeFileFromStarred, starFileGuard, hf, hty, hdel, hnone]

/-- Concrete instance of `star_idempotent_unstar_total`: account 42 stars
file 1 twice, and separately unstars it while unstarred. -/
theorem star_idempotent_unstar_total_witness :
    (findNode searchDb.nodes 1 = some reportNode ∧
      reportNode.type = "file" ∧ reportNode.deleted_at = none ∧
      pairStars searchDb 42 1 = [] ∧
      ∃ db1 s,
        markFileAsStarred searchDb (some 42) 1 6 = .ok (db1, 201) ∧
        db1.nodes = searchDb.nodes ∧ db1.links = searchDb.links ∧
        db1.stars = searchDb.stars ++ [s] ∧ s.user_id = 42 ∧
        s.file_id = 1 ∧ pairStars db1 42 1 = [s] ∧
        markFileAsStarred db1 (some 42) 1 13 = .ok (db1, 200)) ∧
    removeFileFromStarred searchDb (some 42) 1 = .ok (searchDb, 200) :=
  ⟨⟨by decide, by decide, by decide, by decide,
      star_idempotent_unstar_total.1 searchDb 42 1 6 13 reportNode
        (by decide) (by decide) (by decide) (by decide)⟩,
    star_idempotent_unstar_total.2 searchDb 42 1 reportNode (by decide)
      (by decide) (by decide) (by decide)⟩

/-- Claim C6 (amended): for a token whose trim is non-empty and that is
carried by at most one stored link row, `accessPublicResource` fails with
`LINK_NOT_FOUND` when no stored link carries it, fails with
`RESOURCE_NOT_FOUND` when the linked node is missing or soft-deleted, and
otherwise succeeds returning the node plus, for a FILE, the result of
signing its storage path for 3600 seconds — `none` (still a success) when
signing fails or the node is a folder. -/
theorem accessPublicResource_cases (db : DB) (token : String)
    (sign : String → Nat → Option String) (hne : jsTrim token ≠ "") :
    (db.links.filter (fun pl => pl.token == token) = [] →
      accessPublicResource db token sign =
        .error ⟨404, "LINK_NOT_FOUND", "Invalid or expired public link"⟩) ∧
    (∀ l, db.links.filter (fun pl => pl.token == token) = [l] →
      (findNode db.nodes l.node_id = none →
        accessPublicResource db token sign =
          .error ⟨404, "RESOURCE_NOT_FOUND", "Shared resource not found"⟩) ∧
      (∀ node, findNode db.nodes l.node_id = some node →
        (node.deleted_at ≠ none →
          accessPublicResource db token sign =
            .error
              ⟨404, "RESOURCE_NOT_FOUND", "Shared resource not found"⟩) ∧
        (node.deleted_at = none →
          accessPublicResource db token sign =
            .ok ⟨node, l.token,
              if node.type = "file" then
                match node.path with
                | some p => sign p (60 * 60)
                | none => none
              else none⟩))) := by
  refine ⟨?_, ?_⟩
  · intro hmiss
    simp [accessPublicResource, hne, hmiss]
  · intro l hl
    refine ⟨?_, ?_⟩
    · intro hnode
      simp [accessPublicResource, hne, hl, hnode]
    · intro node hnode
      refine ⟨?_, ?_⟩
      · intro hdel
        simp [accessPublicResource, hne, hl, hnode, hdel]
      · intro hdel
        simp [accessPublicResource, hne, hl, hnode, hdel]

/-- Sample publicly linked file with a storage path. -/
def linkedFile : Node :=
  { baseNode with
    id := 1, owner_id := 1, type := "file", name := "doc",
    path := some "stored/doc" }

/-- Sample link row for `linkedFile`. -/
def linkRow : PublicLink := ⟨5, 1, "tok123", 1⟩

/-- Store with one linked live file. -/
def linkDb : DB := ⟨[linkedFile], [], [linkRow]⟩

/-- A signing collaborator that always succeeds. -/
def signOk : String → Nat → Option String :=
  fun p t => some (p ++ "-" ++ toString t)

/-- A signing collaborator that always fails. -/
def signNone : String → Nat → Option String := fun _ _ => none

/-- Concrete instance of `accessPublicResource_cases`: resolving the stored
token of a live file yields the node and its 3600-second signed URL, and
with a failing signer the call still succeeds with a null URL. -/
theorem accessPublicResource_cases_witness :
    jsTrim "tok123" ≠ "" ∧
    linkDb.links.filter (fun pl => pl.token == "tok123") = [linkRow] ∧
    findNode linkDb.nodes linkRow.node_id = some linkedFile ∧
    linkedFile.deleted_at = none ∧
    accessPublicResource linkDb "tok123" signOk =
      .ok ⟨linkedFile, linkRow.token,
        if linkedFile.type = "file" then
          match linkedFile.path with
          | some p => signOk p (60 * 60)
          | none => none
        else none⟩ ∧
    accessPublicResource linkDb "tok123" signNone =
      .ok ⟨linkedFile, linkRow.token,
        if linkedFile.type = "file" then
          match linkedFile.path with
          | some p => signNone p (60 * 60)
          | none => none
        else none⟩ :=
  ⟨by decide, by decide, by decide, by decide,
    (((accessPublicResource_cases linkDb "tok123" signOk (by decide)).2
          linkRow (by decide)).2 linkedFile (by decide)).2 (by decide),
    (((accessPublicResource_cases linkDb "tok123" signNone (by decide)).2
          linkRow (by decide)).2 linkedFile (by decide)).2 (by decide)⟩

/-- Store in which two link rows carry the same token for a live file. -/
def dupLinkDb : DB := ⟨[linkedFile], [], [⟨5, 1, "t", 1⟩, ⟨6, 1, "t", 1⟩]⟩

/-- Claim C6, counterexample to the claim as stated ("for every token"):
a blank token is carried by no stored link, yet the call fails with
`VALIDATION_ERROR` (400) instead of `LINK_NOT_FOUND`; and a token carried by
two stored rows pointing at a live node fails with `LINK_NOT_FOUND` instead
of succeeding (the `.single()` lookup rejects multiple matches). -/
theorem accessPublicResource_counterexample :
    (linkDb.links.filter (fun pl => pl.token == " ") = [] ∧
      accessPublicResource linkDb " " signNone =
        .error ⟨400, "VALIDATION_ERROR", "Token is required"⟩) ∧
    (dupLinkDb.links.filter (fun pl => pl.token == "t") =
        [⟨5, 1, "t", 1⟩, ⟨6, 1, "t", 1⟩] ∧
      (∃ n ∈ dupLinkDb.nodes, n.id = 1 ∧ n.deleted_at = none) ∧
      accessPublicResource dupLinkDb "t" signNone =
        .error ⟨404, "LINK_NOT_FOUND", "Invalid or expired public link"⟩) := by
  decide

/-! ## Parent-walk lemmas for the acyclicity claim -/

/-- A successful node lookup returns a member carrying the searched id. -/
theorem findNode_mem {nodes : List Node} {i : Nat} {n : Node}
    (h : findNode nodes i = some n) : n ∈ nodes ∧ n.id = i := by
  unfold findNode at h
  refine ⟨List.mem_of_find?_eq_some h, ?_⟩
  have := List.find?_some h
  simpa using this

/-- With duplicate-free ids, lookup of a member's id returns that member. -/
theorem findNode_of_mem_nodup {nodes : List Node}
    (hnd : (idsOf nodes).Nodup) {n : Node} (hm : n ∈ nodes) :
    findNode nodes n.id = some n := by
  induction nodes with
  | nil => cases hm
  | cons m ms ih =>
    rw [idsOf, List.map_cons, List.nodup_cons] at hnd
    rcases List.mem_cons.1 hm with rfl | hm'
    · unfold findNode
      rw [List.find?_cons_of_pos _ (by simp)]
    · have hne : (m.id == n.id) = false := by
        simp only [beq_eq_false_iff_ne, ne_eq]
        intro he
        exact hnd.1 (he ▸ List.mem_map.2 ⟨n, hm', rfl⟩)
      unfold findNode at ih ⊢
      rw [List.find?_cons_of_neg _ (by simp [hne])]
      exact ih hnd.2 hm'

/-- With duplicate-free ids, two members sharing an id are the same row. -/
theorem mem_id_unique {nodes : List Node} (hnd : (idsOf nodes).Nodup)
    {a b : Node} (ha : a ∈ nodes) (hb : b ∈ nodes) (h : a.id = b.id) :
    a = b := by
  have h1 := findNode_of_mem_nodup hnd ha
  have h2 := findNode_of_mem_nodup hnd hb
  rw [h, h2] at h1
  injection h1 with h1
  exact h1.symm

theorem walkIds_none (nodes : List Node) (f : Nat) :
    walkIds nodes f none = some [] := by
  cases f <;> rfl

theorem walkIds_zero (nodes : List Node) (q : Nat) :
    walkIds nodes 0 (some q) = none := rfl

theorem walkIds_succ_none {nodes : List Node} {q : Nat} (f : Nat)
    (h : findNode nodes q = none) :
    walkIds nodes (f + 1) (some q) = none := by
  show (match findNode nodes q with
    | none => none
    | some m => (walkIds nodes f m.parent_id).map (fun L => q :: L)) = none
  rw [h]

theorem walkIds_succ_some {nodes : List Node} {q : Nat} {m : Node} (f : Nat)
    (h : findNode nodes q = some m) :
    walkIds nodes (f + 1) (some q) =
      (walkIds nodes f m.parent_id).map (fun L => q :: L) := by
  show (match findNode nodes q with
    | none => none
    | some m => (walkIds nodes f m.parent_id).map (fun L => q :: L)) = _
  rw [h]

/-- The ids visited by a successful walk do not depend on the fuel. -/
theorem walkIds_det (nodes : List Node) :
    ∀ f f' p L L', walkIds nodes f p = some L →
      walkIds nodes f' p = some L' → L = L' := by
  intro f
  induction f with
  | zero =>
    intro f' p L L' h1 h2
    cases p with
    | none => rw [walkIds_none] at h1 h2; cases h1; cases h2; rfl
    | some q => rw [walkIds_zero] at h1; cases h1
  | succ g ih =>
    intro f' p L L' h1 h2
    cases p with
    | none => rw [walkIds_none] at h1 h2; cases h1; cases h2; rfl
    | some q =>
      cases f' with
      | zero => rw [walkIds_zero] at h2; cases h2
      | succ g' =>
        cases hfind : findNode nodes q with
        | none => rw [walkIds_succ_none g hfind] at h1; cases h1
        | some m =>
          rw [walkIds_succ_some g hfind] at h1
          rw [walkIds_succ_some g' hfind] at h2
          simp only [Option.map_eq_some'] at h1 h2
          obtain ⟨L1, hw1, hL⟩ := h1
          obtain ⟨L1', hw1', hL'⟩ := h2
          rw [← hL, ← hL', ih g' m.parent_id L1 L1' hw1 hw1']

/-- A successful walk also succeeds with fuel equal to its own length. -/
theorem walkIds_exact (nodes : List Node) :
    ∀ f p L, walkIds nodes f p = some L →
      walkIds nodes L.length p = some L := by
  intro f
  induction f with
  | zero =>
    intro p L h
    cases p with
    | none => rw [walkIds_none] at h; cases h; rfl
    | some q => rw [walkIds_zero] at h; cases h
  | succ g ih =>
    intro p L h
    cases p with
    | none => rw [walkIds_none] at h; cases h; rfl
    | some q =>
      cases hfind : findNode nodes q with
      | none => rw [walkIds_succ_none g hfind] at h; cases h
      | some m =>
        rw [walkIds_succ_some g hfind] at h
        simp only [Option.map_eq_some'] at h
        obtain ⟨L1, hw1, hL⟩ := h
        subst hL
        rw [List.length_cons, walkIds_succ_some L1.length hfind,
          ih m.parent_id L1 hw1]
        rfl

/-- A successful walk stays successful with more fuel. -/
theorem walkIds_mono (nodes : List Node) :
    ∀ f f' p L, walkIds nodes f p = some L → f ≤ f' →
      walkIds nodes f' p = some L := by
  intro f
  induction f with
  | zero =>
    intro f' p L h hle
    cases p with
    | none => rw [walkIds_none] at h; cases h; rw [walkIds_none]
    | some q => rw [walkIds_zero] at h; cases h
  | succ g ih =>
    intro f' p L h hle
    cases p with
    | none => rw [walkIds_none] at h; cases h; rw [walkIds_none]
    | some q =>
      cases f' with
      | zero => omega
      | succ g' =>
        cases hfind : findNode nodes q with
        | none => rw [walkIds_succ_none g hfind] at h; cases h
        | some m =>
          rw [walkIds_succ_some g hfind] at h
          rw [walkIds_succ_some g' hfind]
          simp only [Option.map_eq_some'] at h ⊢
          obtain ⟨L1, hw1, hL⟩ := h
          exact ⟨L1, ih g' m.parent_id L1 hw1 (by omega), hL⟩

/-- Every id on a successful walk starts its own successful walk, no longer
than the original. -/
theorem walkIds_suffix (nodes : List Node) :
    ∀ f p L, walkIds nodes f p = some L → ∀ x ∈ L,
      ∃ g M, walkIds nodes g (some x) = some M ∧ M.length ≤ L.length := by
  intro f
  induction f with
  | zero =>
    intro p L h x hx
    cases p with
    | none => rw [walkIds_none] at h; cases h; cases hx
    | some q => rw [walkIds_zero] at h; cases h
  | succ g ih =>
    intro p L h x hx
    cases p with
    | none => rw [walkIds_none] at h; cases h; cases hx
    | some q =>
      cases hfind : findNode nodes q with
      | none => rw [walkIds_succ_none g hfind] at h; cases h
      | some m =>
        rw [walkIds_succ_some g hfind] at h
        simp only [Option.map_eq_some'] at h
        obtain ⟨L1, hw1, hL⟩ := h
        subst hL
        rcases List.mem_cons.1 hx with rfl | hx'
        · exact ⟨g + 1, x :: L1,
            by rw [walkIds_succ_some g hfind, hw1]; rfl, Nat.le_refl _⟩
        · obtain ⟨g', M, hM, hlen⟩ := ih m.parent_id L1 hw1 x hx'
          exact ⟨g', M, hM, by simp only [List.length_cons]; omega⟩

/-- A successful walk never revisits an id. -/
theorem walkIds_nodup (nodes : List Node) :
    ∀ f p L, walkIds nodes f p = some L → L.Nodup := by
  intro f
  induction f with
  | zero =>
    intro p L h
    cases p with
    | none => rw [walkIds_none] at h; cases h; exact List.nodup_nil
    | some q => rw [walkIds_zero] at h; cases h
  | succ g ih =>
    intro p L h
    cases p with
    | none => rw [walkIds_none] at h; cases h; exact List.nodup_nil
    | some q =>
      cases hfind : findNode nodes q with
      | none => rw [walkIds_succ_none g hfind] at h; cases h
      | some m =>
        rw [walkIds_succ_some g hfind] at h
        simp only [Option.map_eq_some'] at h
        obtain ⟨L1, hw1, hL⟩ := h
        subst hL
        refine List.nodup_cons.2 ⟨?_, ih m.parent_id L1 hw1⟩
        intro hq
        obtain ⟨g', M, hM, hlen⟩ := walkIds_suffix nodes g m.parent_id L1
          hw1 q hq
        have hdet := walkIds_det nodes (g + 1) g' (some q) (q :: L1) M
          (by rw [walkIds_succ_some g hfind, hw1]; rfl) hM
        rw [← hdet] at hlen
        simp only [List.length_cons] at hlen
        omega

/-- Every id on a successful walk is the id of some row. -/
theorem walkIds_subset (nodes : List Node) :
    ∀ f p L, walkIds nodes f p = some L → ∀ x ∈ L, x ∈ idsOf nodes := by
  intro f
  induction f with
  | zero =>
    intro p L h x hx
    cases p with
    | none => rw [walkIds_none] at h; cases h; cases hx
    | some q => rw [walkIds_zero] at h; cases h
  | succ g ih =>
    intro p L h x hx
    cases p with
    | none => rw [walkIds_none] at h; cases h; cases hx
    | some q =>
      cases hfind : findNode nodes q with
      | none => rw [walkIds_succ_none g hfind] at h; cases h
      | some m =>
        rw [walkIds_succ_some g hfind] at h
        simp only [Option.map_eq_some'] at h
        obtain ⟨L1, hw1, hL⟩ := h
        subst hL
        rcases List.mem_cons.1 hx with rfl | hx'
        · obtain ⟨hm, hid⟩ := findNode_mem hfind
          exact List.mem_map.2 ⟨m, hm, hid⟩
        · exact ih m.parent_id L1 hw1 x hx'

/-- Any walk that succeeds with some fuel already succeeds with node-count
fuel: a successful walk visits pairwise distinct existing ids. -/
theorem reachesRoot_compress (nodes : List Node)
    {f : Nat} {p : Option Nat} {L : List Nat}
    (h : walkIds nodes f p = some L) :
    reachesRoot nodes nodes.length p = true := by
  have hex := walkIds_exact nodes f p L h
  have hnodup := walkIds_nodup nodes f p L h
  have hsub : L ⊆ idsOf nodes := fun x hx =>
    walkIds_subset nodes f p L h x hx
  have hlen : L.length ≤ nodes.length := by
    have hsp := List.subperm_of_subset hnodup hsub
    have hle := hsp.length_le
    simpa [idsOf] using hle
  have hbig := walkIds_mono nodes L.length nodes.length p L hex hlen
  rw [reachesRoot, hbig]
  rfl

theorem findNode_cons_pos {a : Node} {q : Nat} (as : List Node)
    (h : (a.id == q) = true) : findNode (a :: as) q = some a := by
  unfold findNode
  rw [List.find?_cons_of_pos _ (by exact h)]

theorem findNode_cons_neg {a : Node} {q : Nat} (as : List Node)
    (h : (a.id == q) = false) : findNode (a :: as) q = findNode as q := by
  unfold findNode
  rw [List.find?_cons_of_neg _ (by simp [h])]

/-- Appending a row does not change an existing successful lookup. -/
theorem findNode_append {q : Nat} {m x : Node} :
    ∀ {nodes : List Node}, findNode nodes q = some m →
      findNode (nodes ++ [x]) q = some m := by
  intro nodes
  induction nodes with
  | nil => intro h; cases h
  | cons a as ih =>
    intro h
    rw [List.cons_append]
    cases ha : (a.id == q) with
    | true =>
      rw [findNode_cons_pos as ha] at h
      rw [findNode_cons_pos (as ++ [x]) ha]
      exact h
    | false =>
      rw [findNode_cons_neg as ha] at h
      rw [findNode_cons_neg (as ++ [x]) ha]
      exact ih h

/-- A successful walk is unaffected by appending a row. -/
theorem walkIds_append (nodes : List Node) (x : Node) :
    ∀ f p L, walkIds nodes f p = some L →
      walkIds (nodes ++ [x]) f p = some L := by
  intro f
  induction f with
  | zero =>
    intro p L h
    cases p with
    | none => rw [walkIds_none] at h; cases h; rw [walkIds_none]
    | some q => rw [walkIds_zero] at h; cases h
  | succ g ih =>
    intro p L h
    cases p with
    | none => rw [walkIds_none] at h; cases h; rw [walkIds_none]
    | some q =>
      cases hfind : findNode nodes q with
      | none => rw [walkIds_succ_none g hfind] at h; cases h
      | some m =>
        rw [walkIds_succ_some g hfind] at h
        rw [walkIds_succ_some g (findNode_append hfind)]
        simp only [Option.map_eq_some'] at h ⊢
        obtain ⟨L1, hw1, hL⟩ := h
        exact ⟨L1, ih m.parent_id L1 hw1, hL⟩

/-- The update applied by `reparent` preserves the id of every row. -/
theorem reparent_head_id (n : Node) (id target now : Nat) :
    (if n.id = id then { n with parent_id := some target, updated_at := now }
      else n).id = n.id := by
  split <;> rfl

/-- Reparenting does not change the stored ids. -/
theorem idsOf_reparent (nodes : List Node) (id target now : Nat) :
    idsOf (reparent nodes id target now) = idsOf nodes := by
  unfold idsOf reparent
  rw [List.map_map]
  apply List.map_congr_left
  intro n _
  exact reparent_head_id n id target now

/-- Looking up any id other than the reparented one is unchanged — and the
returned row itself is untouched. -/
theorem findNode_reparent_ne {q id : Nat} (hne : q ≠ id)
    (target now : Nat) :
    ∀ {nodes : List Node},
      findNode (reparent nodes id target now) q = findNode nodes q := by
  intro nodes
  induction nodes with
  | nil => rfl
  | cons a as ih =>
    show findNode
      ((if a.id = id then
          { a with parent_id := some target, updated_at := now } else a) ::
        reparent as id target now) q = _
    cases ha : (a.id == q) with
    | true =>
      have haq : a.id = q := by simpa using ha
      have hmapped :
          (if a.id = id then
            { a with parent_id := some target, updated_at := now } else a) =
            a := by
        rw [if_neg]
        intro hai
        exact hne (haq ▸ hai)
      rw [hmapped, findNode_cons_pos _ ha, findNode_cons_pos as ha]
    | false =>
      have hmid : ((if a.id = id then
          { a with parent_id := some target, updated_at := now }
          else a).id == q) = false := by
        rw [reparent_head_id]
        exact ha
      rw [findNode_cons_neg _ hmid, findNode_cons_neg as ha]
      exact ih

/-- Looking up the reparented id returns the updated row. -/
theorem findNode_reparent_self {id : Nat} (target now : Nat) :
    ∀ {nodes : List Node} {m : Node}, findNode nodes id = some m →
      findNode (reparent nodes id target now) id =
        some { m with parent_id := some target, updated_at := now } := by
  intro nodes
  induction nodes with
  | nil => intro m h; cases h
  | cons a as ih =>
    intro m h
    show findNode
      ((if a.id = id then
          { a with parent_id := some target, updated_at := now } else a) ::
        reparent as id target now) id = _
    cases ha : (a.id == id) with
    | true =>
      have haq : a.id = id := by simpa using ha
      rw [findNode_cons_pos as ha] at h
      injection h with h
      subst h
      have hmid : ((if a.id = id then
          { a with parent_id := some target, updated_at := now }
          else a).id == id) = true := by
        rw [reparent_head_id]
        exact ha
      rw [findNode_cons_pos _ hmid, if_pos haq]
    | false =>
      rw [findNode_cons_neg as ha] at h
      have hmid : ((if a.id = id then
          { a with parent_id := some target, updated_at := now }
          else a).id == id) = false := by
        rw [reparent_head_id]
        exact ha
      rw [findNode_cons_neg _ hmid]
      exact ih h

/-- A walk that never visits the reparented id is unchanged by the
reparenting. -/
theorem walkIds_reparent_avoid (nodes : List Node) (id target now : Nat) :
    ∀ f p L, walkIds nodes f p = some L → id ∉ L →
      walkIds (reparent nodes id target now) f p = some L := by
  intro f
  induction f with
  | zero =>
    intro p L h havoid
    cases p with
    | none => rw [walkIds_none] at h; cases h; rw [walkIds_none]
    | some q => rw [walkIds_zero] at h; cases h
  | succ g ih =>
    intro p L h havoid
    cases p with
    | none => rw [walkIds_none] at h; cases h; rw [walkIds_none]
    | some q =>
      cases hfind : findNode nodes q with
      | none => rw [walkIds_succ_none g hfind] at h; cases h
      | some m =>
        rw [walkIds_succ_some g hfind] at h
        simp only [Option.map_eq_some'] at h
        obtain ⟨L1, hw1, hL⟩ := h
        subst hL
        have hqne : q ≠ id := by
          intro hq
          exact havoid (hq ▸ List.mem_cons_self q L1)
        have hfind' :
            findNode (reparent nodes id target now) q = some m := by
          rw [findNode_reparent_ne hqne target now]
          exact hfind
        rw [walkIds_succ_some g hfind', ih m.parent_id L1 hw1
          (fun hmem => havoid (List.mem_cons_of_mem q hmem))]
        rfl

theorem checkCircular_zero (nodes : List Node) (a b : Nat) :
    checkCircular nodes 0 a b = false := rfl

theorem checkCircular_succ (nodes : List Node) (f a b : Nat) :
    checkCircular nodes (f + 1) a b =
      nodes.any fun n =>
        n.parent_id == some a &&
          (n.id == b || checkCircular nodes f n.id b) := rfl

/-- A successful cycle check stays successful with more fuel. -/
theorem checkCircular_mono (nodes : List Node) :
    ∀ f f' a b, checkCircular nodes f a b = true → f ≤ f' →
      checkCircular nodes f' a b = true := by
  intro f
  induction f with
  | zero =>
    intro f' a b h _
    rw [checkCircular_zero] at h
    cases h
  | succ g ih =>
    intro f' a b h hle
    cases f' with
    | zero => omega
    | succ g' =>
      rw [checkCircular_succ, List.any_eq_true] at h ⊢
      obtain ⟨n, hn, hcond⟩ := h
      rw [Bool.and_eq_true, Bool.or_eq_true] at hcond
      refine ⟨n, hn, ?_⟩
      rw [Bool.and_eq_true, Bool.or_eq_true]
      refine ⟨hcond.1, ?_⟩
      rcases hcond.2 with hid | hrec
      · exact Or.inl hid
      · exact Or.inr (ih g' n.id b hrec (by omega))

/-- A direct child is found by the cycle check in one level. -/
theorem checkCircular_child {nodes : List Node} {c : Node} (hc : c ∈ nodes)
    {a : Nat} (hp : c.parent_id = some a) (f : Nat) :
    checkCircular nodes (f + 1) a c.id = true := by
  rw [checkCircular_succ, List.any_eq_true]
  exact ⟨c, hc, by simp [hp]⟩

/-- Extending a found descendant by one more child step costs one level of
fuel. -/
theorem checkCircular_extend (nodes : List Node) :
    ∀ f a b, checkCircular nodes f a b = true →
      ∀ c ∈ nodes, c.parent_id = some b →
        checkCircular nodes (f + 1) a c.id = true := by
  intro f
  induction f with
  | zero =>
    intro a b h
    rw [checkCircular_zero] at h
    cases h
  | succ g ih =>
    intro a b h c hc hp
    rw [checkCircular_succ, List.any_eq_true] at h
    obtain ⟨n, hn, hcond⟩ := h
    rw [Bool.and_eq_true, Bool.or_eq_true] at hcond
    obtain ⟨hpar, hrest⟩ := hcond
    rw [checkCircular_succ, List.any_eq_true]
    refine ⟨n, hn, ?_⟩
    rw [Bool.and_eq_true, Bool.or_eq_true]
    refine ⟨hpar, Or.inr ?_⟩
    rcases hrest with hid | hrec
    · have hb : n.id = b := by simpa using hid
      exact checkCircular_child hc (hb ▸ hp) g
    · exact ih n.id b hrec c hc hp

/-- Inversion of a positive descendant test: the node exists and the
ancestor id occurs on its parent walk. -/
theorem isDescendant_true {nodes : List Node} {anc des : Nat}
    (h : isDescendant nodes anc des = true) :
    ∃ d L, findNode nodes des = some d ∧
      walkIds nodes nodes.length d.parent_id = some L ∧ anc ∈ L := by
  unfold isDescendant at h
  split at h
  next => simp at h
  next d heq1 =>
    split at h
    next => simp at h
    next L heq2 => exact ⟨d, L, heq1, heq2, by simpa using h⟩

/-- Under ownership closure, every id on the parent walk of a node owned by
`uid` belongs to a row owned by `uid`. -/
theorem walk_owned (nodes : List Node) (hnd : (idsOf nodes).Nodup)
    (hoc : ∀ n ∈ nodes, ∀ p, n.parent_id = some p →
      ∃ m ∈ nodes, m.id = p ∧ m.owner_id = n.owner_id) (uid : Nat) :
    ∀ f (nd : Node) L, nd ∈ nodes → nd.owner_id = uid →
      walkIds nodes f nd.parent_id = some L →
      ∀ x ∈ L, ∃ m ∈ nodes, m.id = x ∧ m.owner_id = uid := by
  intro f
  induction f with
  | zero =>
    intro nd L hm hown h x hx
    cases hp : nd.parent_id with
    | none => rw [hp, walkIds_none] at h; cases h; cases hx
    | some q => rw [hp, walkIds_zero] at h; cases h
  | succ g ih =>
    intro nd L hm hown h x hx
    cases hp : nd.parent_id with
    | none => rw [hp, walkIds_none] at h; cases h; cases hx
    | some q =>
      rw [hp] at h
      cases hfind : findNode nodes q with
      | none => rw [walkIds_succ_none g hfind] at h; cases h
      | some m =>
        rw [walkIds_succ_some g hfind] at h
        simp only [Option.map_eq_some'] at h
        obtain ⟨L1, hw1, hL⟩ := h
        subst hL
        obtain ⟨m', hm', hid', hown'⟩ := hoc nd hm q hp
        have hmm : m = m' :=
          mem_id_unique hnd (findNode_mem hfind).1 hm'
            ((findNode_mem hfind).2.trans hid'.symm)
        have hmo : m.owner_id = uid := by rw [hmm, hown', hown]
        rcases List.mem_cons.1 hx with rfl | hx'
        · exact ⟨m, (findNode_mem hfind).1, (findNode_mem hfind).2, hmo⟩
        · exact ih m L1 (findNode_mem hfind).1 hmo hw1 x hx'

/-- Completeness of moveFolder's cycle check: if `id` occurs on the parent
walk of a node owned by `uid`, the recursive child search over the
requester's rows finds that node below `id` within walk-length fuel. -/
theorem walk_to_cc (nodes : List Node) (hnd : (idsOf nodes).Nodup)
    (hoc : ∀ n ∈ nodes, ∀ p, n.parent_id = some p →
      ∃ m ∈ nodes, m.id = p ∧ m.owner_id = n.owner_id) (uid id : Nat) :
    ∀ f (nd : Node) L, nd ∈ nodes → nd.owner_id = uid →
      walkIds nodes f nd.parent_id = some L → id ∈ L →
      checkCircular (nodes.filter fun n => n.owner_id == uid) L.length id
        nd.id = true := by
  intro f
  induction f with
  | zero =>
    intro nd L hm hown h hid
    cases hp : nd.parent_id with
    | none => rw [hp, walkIds_none] at h; cases h; cases hid
    | some q => rw [hp, walkIds_zero] at h; cases h
  | succ g ih =>
    intro nd L hm hown h hid
    cases hp : nd.parent_id with
    | none => rw [hp, walkIds_none] at h; cases h; cases hid
    | some q =>
      rw [hp] at h
      cases hfind : findNode nodes q with
      | none => rw [walkIds_succ_none g hfind] at h; cases h
      | some m =>
        rw [walkIds_succ_some g hfind] at h
        simp only [Option.map_eq_some'] at h
        obtain ⟨L1, hw1, hL⟩ := h
        subst hL
        have hndmem : nd ∈ nodes.filter fun n => n.owner_id == uid :=
          List.mem_filter.2 ⟨hm, by simp [hown]⟩
        rcases List.mem_cons.1 hid with rfl | hid'
        · rw [List.length_cons]
          exact checkCircular_child hndmem hp L1.length
        · obtain ⟨m', hm', hid'', hown'⟩ := hoc nd hm q hp
          have hmm : m = m' :=
            mem_id_unique hnd (findNode_mem hfind).1 hm'
              ((findNode_mem hfind).2.trans hid''.symm)
          have hmo : m.owner_id = uid := by rw [hmm, hown', hown]
          have hcc := ih m L1 (findNode_mem hfind).1 hmo hw1 hid'
          rw [List.length_cons]
          have hpm : nd.parent_id = some m.id := by
            rw [hp, (findNode_mem hfind).2]
          exact checkCircular_extend _ L1.length id m.id hcc nd hndmem hpm

/-- Rejection half of the acyclicity claim: on a well-formed store, moving
an owned folder onto itself or onto any of its descendants fails with
`INVALID_MOVE` (HTTP 400); no write happens on the error path. -/
theorem moveFolder_rejects (db : DB) (uid id target now : Nat)
    (fnode tnode : Node) (hT : Terminating db) (hoc : OwnerClosed db)
    (hfol : findNode db.nodes id = some fnode)
    (hfty : fnode.type = "folder") (hfown : fnode.owner_id = uid)
    (htar : findNode db.nodes target = some tnode)
    (htty : tnode.type = "folder") (htown : tnode.owner_id = uid)
    (hbad : target = id ∨ isDescendant db.nodes id target = true) :
    errCodeOf (moveFolder db (some uid) id (some target) now) =
      some "INVALID_MOVE" ∧
    errStatusOf (moveFolder db (some uid) id (some target) now) =
      some 400 := by
  obtain ⟨hnd, hreach⟩ := hT
  rcases hbad with rfl | hdesc
  · constructor <;>
      simp [moveFolder, hfol, hfty, hfown, htar, htty, htown, errCodeOf,
        errStatusOf]
  · obtain ⟨d, L, hfind_d, hwalk, hmem⟩ := isDescendant_true hdesc
    rw [htar] at hfind_d
    injection hfind_d with hfind_d
    subst hfind_d
    have htmem := (findNode_mem htar).1
    have htid : tnode.id = target := (findNode_mem htar).2
    -- the whole chain t.id :: L is duplicate-free and owned by uid
    have hfind_t : findNode db.nodes tnode.id = some tnode := by
      rw [htid]; exact htar
    have hw_big : walkIds db.nodes (db.nodes.length + 1) (some tnode.id) =
        some (tnode.id :: L) := by
      rw [walkIds_succ_some db.nodes.length hfind_t, hwalk]; rfl
    have hnodup_cons : (tnode.id :: L).Nodup :=
      walkIds_nodup db.nodes (db.nodes.length + 1) (some tnode.id)
        (tnode.id :: L) hw_big
    have howned := walk_owned db.nodes hnd hoc uid db.nodes.length tnode L
      htmem htown hwalk
    have hsub : (tnode.id :: L) ⊆
        idsOf (db.nodes.filter fun n => n.owner_id == uid) := by
      intro x hx
      rcases List.mem_cons.1 hx with rfl | hx'
      · exact List.mem_map.2
          ⟨tnode, List.mem_filter.2 ⟨htmem, by simp [htown]⟩, rfl⟩
      · obtain ⟨m, hmmem, hmid, hmo⟩ := howned x hx'
        exact List.mem_map.2
          ⟨m, List.mem_filter.2 ⟨hmmem, by simp [hmo]⟩, hmid⟩
    have hlen : L.length + 1 ≤
        (db.nodes.filter fun n => n.owner_id == uid).length := by
      have hsp := List.subperm_of_subset hnodup_cons hsub
      have hle := hsp.length_le
      simp only [List.length_cons, idsOf, List.length_map] at hle
      omega
    have hcc := walk_to_cc db.nodes hnd hoc uid id db.nodes.length tnode L
      htmem htown hwalk hmem
    have hccN : checkCircular (db.nodes.filter fun n => n.owner_id == uid)
        (db.nodes.filter fun n => n.owner_id == uid).length id target =
        true := by
      have := checkCircular_mono _ L.length
        (db.nodes.filter fun n => n.owner_id == uid).length id tnode.id hcc
        (by omega)
      rw [htid] at this
      exact this
    have hne : ¬ id = target := by
      intro he
      rcases List.nodup_cons.1 hnodup_cons with ⟨hni, _⟩
      apply hni
      rw [htid, ← he]
      exact hmem
    constructor <;>
      simp [moveFolder, hfol, hfty, hfown, htar, htty, htown, hne, hccN,
        errCodeOf, errStatusOf]

theorem reachesRoot_none (nodes : List Node) (f : Nat) :
    reachesRoot nodes f none = true := by
  rw [reachesRoot, walkIds_none]
  rfl

/-- A parent chain that reaches the root exhibits a concrete walk. -/
theorem reachesRoot_iff (nodes : List Node) (f : Nat) (p : Option Nat) :
    reachesRoot nodes f p = true ↔ ∃ L, walkIds nodes f p = some L := by
  rw [reachesRoot]
  cases walkIds nodes f p <;> simp

/-- One lookup step of a successful chain. -/
theorem reachesRoot_step {nodes : List Node} {q : Nat} {m : Node}
    (hf : findNode nodes q = some m) {f : Nat}
    (h : reachesRoot nodes f m.parent_id = true) :
    reachesRoot nodes (f + 1) (some q) = true := by
  obtain ⟨L, hw⟩ := (reachesRoot_iff nodes f m.parent_id).1 h
  rw [reachesRoot, walkIds_succ_some f hf, hw]
  rfl

/-- Reaching the root is monotone in the fuel. -/
theorem reachesRoot_mono {nodes : List Node} {f f' : Nat} {p : Option Nat}
    (h : reachesRoot nodes f p = true) (hle : f ≤ f') :
    reachesRoot nodes f' p = true := by
  obtain ⟨L, hw⟩ := (reachesRoot_iff nodes f p).1 h
  exact (reachesRoot_iff nodes f' p).2 ⟨L, walkIds_mono nodes f f' p L hw hle⟩

/-- On a duplicate-free, ownership-closed store, an ancestor id sitting on
the parent walk of an owned node is found by moveFolder's cycle check at its
actual fuel, the requester's row count. -/
theorem walk_cc_at_length (nodes : List Node) (hnd : (idsOf nodes).Nodup)
    (hoc : ∀ n ∈ nodes, ∀ p, n.parent_id = some p →
      ∃ m ∈ nodes, m.id = p ∧ m.owner_id = n.owner_id)
    {uid id : Nat} {tnode : Node} {L : List Nat}
    (htmem : tnode ∈ nodes) (htown : tnode.owner_id = uid)
    (hwalk : walkIds nodes nodes.length tnode.parent_id = some L)
    (hmem : id ∈ L) :
    checkCircular (nodes.filter fun n => n.owner_id == uid)
      (nodes.filter fun n => n.owner_id == uid).length id tnode.id =
      true := by
  have hfind_t : findNode nodes tnode.id = some tnode :=
    findNode_of_mem_nodup hnd htmem
  have hw_big : walkIds nodes (nodes.length + 1) (some tnode.id) =
      some (tnode.id :: L) := by
    rw [walkIds_succ_some nodes.length hfind_t, hwalk]
    rfl
  have hnodup_cons : (tnode.id :: L).Nodup :=
    walkIds_nodup nodes (nodes.length + 1) (some tnode.id) (tnode.id :: L)
      hw_big
  have howned := walk_owned nodes hnd hoc uid nodes.length tnode L htmem
    htown hwalk
  have hsub : (tnode.id :: L) ⊆
      idsOf (nodes.filter fun n => n.owner_id == uid) := by
    intro x hx
    rcases List.mem_cons.1 hx with rfl | hx'
    · exact List.mem_map.2
        ⟨tnode, List.mem_filter.2 ⟨htmem, by simp [htown]⟩, rfl⟩
    · obtain ⟨m, hmmem, hmid, hmo⟩ := howned x hx'
      exact List.mem_map.2
        ⟨m, List.mem_filter.2 ⟨hmmem, by simp [hmo]⟩, hmid⟩
  have hlen : L.length + 1 ≤
      (nodes.filter fun n => n.owner_id == uid).length := by
    have hsp := List.subperm_of_subset hnodup_cons hsub
    have hle := hsp.length_le
    simp only [List.length_cons, idsOf, List.length_map] at hle
    omega
  have hcc := walk_to_cc nodes hnd hoc uid id nodes.length tnode L htmem
    htown hwalk hmem
  exact checkCircular_mono _ L.length _ id tnode.id hcc (by omega)

/-- Inversion of a successful folder move: every guard passed and the store
was updated by exactly the reparenting write. -/
theorem moveFolder_ok_inv {db : DB} {uid id tgt now : Nat} {db' : DB}
    (h : moveFolder db (some uid) id (some tgt) now = .ok db') :
    ∃ fnode tnode, findNode db.nodes id = some fnode ∧
      fnode.type = "folder" ∧ fnode.owner_id = uid ∧
      findNode db.nodes tgt = some tnode ∧ tnode.type = "folder" ∧
      tnode.owner_id = uid ∧ ¬ id = tgt ∧
      checkCircular (db.nodes.filter fun n => n.owner_id == uid)
        (db.nodes.filter fun n => n.owner_id == uid).length id tgt =
        false ∧
      db' = { db with nodes := reparent db.nodes id tgt now } := by
  simp only [moveFolder] at h
  split at h
  next => cases h
  next fnode heqf =>
    split at h
    next => cases h
    next hft =>
      split at h
      next => cases h
      next hfo =>
        split at h
        next => cases h
        next tnode heqt =>
          split at h
          next => cases h
          next htt =>
            split at h
            next => cases h
            next hto =>
              split at h
              next => cases h
              next hid =>
                split at h
                next => cases h
                next hcc =>
                  injection h with h
                  refine ⟨fnode, tnode, heqf, not_not.1 hft, not_not.1 hfo,
                    heqt, not_not.1 htt, not_not.1 hto, hid, ?_, h.symm⟩
                  simp only [Bool.not_eq_true] at hcc
                  exact hcc

/-- Inversion of a successful folder creation: the name was non-blank and
the store was extended with exactly the literal new row. -/
theorem createFolder_ok_inv {db : DB} {uid : Nat} {nm : String}
    {parent : Option Nat} {newId now : Nat} {db' : DB} {node : Node}
    (h : createFolder db (some uid) nm parent newId now =
      .ok (db', node)) :
    node =
      { id := newId, owner_id := uid, type := "folder", name := jsTrim nm,
        parent_id := parent, size_bytes := none, mime_type := none,
        path := none, shared_with := none, created_at := now,
        updated_at := now, deleted_at := none } ∧
    db' = { db with nodes := db.nodes ++ [node] } := by
  simp only [createFolder] at h
  split at h
  next => cases h
  next =>
    injection h with h
    rw [Prod.mk.injEq] at h
    obtain ⟨h1, h2⟩ := h
    subst h2
    exact ⟨rfl, by rw [← h1]⟩

/-- Rewiring lemma: if the reparented store lets the new parent `tgt` reach
the root, then every chain of the original store still reaches the root in
the reparented store — it follows its old edges until (possibly) hitting the
moved node, then continues through `tgt`. -/
theorem walkIds_rewire (nodes : List Node) (id tgt now : Nat) (LT : Nat)
    (hres : reachesRoot (reparent nodes id tgt now) LT (some tgt) = true) :
    ∀ f p M, walkIds nodes f p = some M →
      reachesRoot (reparent nodes id tgt now) (M.length + LT + 1) p =
        true := by
  intro f
  induction f with
  | zero =>
    intro p M h
    cases p with
    | none => exact reachesRoot_none _ _
    | some q => rw [walkIds_zero] at h; cases h
  | succ g ih =>
    intro p M h
    cases p with
    | none => exact reachesRoot_none _ _
    | some q =>
      cases hfind : findNode nodes q with
      | none => rw [walkIds_succ_none g hfind] at h; cases h
      | some m =>
        rw [walkIds_succ_some g hfind] at h
        simp only [Option.map_eq_some'] at h
        obtain ⟨M1, hw1, hM⟩ := h
        subst hM
        by_cases hq : q = id
        · subst hq
          have hfind' := findNode_reparent_self tgt now hfind
          have htail : reachesRoot (reparent nodes q tgt now)
              (M1.length + LT) (some tgt) = true :=
            reachesRoot_mono hres (by omega)
          have hstep := reachesRoot_step hfind' htail
          rw [List.length_cons]
          exact reachesRoot_mono hstep (by omega)
        · have hfind' : findNode (reparent nodes id tgt now) q = some m := by
            rw [findNode_reparent_ne hq tgt now]
            exact hfind
          have htail := ih m.parent_id M1 hw1
          have hstep := reachesRoot_step hfind' htail
          rw [List.length_cons]
          exact reachesRoot_mono hstep (by omega)

/-- A valid folder creation preserves well-formedness: the fresh row hangs
below an existing owned folder, so all chains still reach the root. -/
theorem WF_create (db : DB) (uid : Nat) (nm : String) (parent : Option Nat)
    (newId now : Nat) (db' : DB) (node : Node) (hWF : WF db)
    (hfresh : newId ∉ idsOf db.nodes)
    (hparent : ∀ p, parent = some p →
      ∃ m ∈ db.nodes, m.id = p ∧ m.owner_id = uid ∧ m.type = "folder")
    (h : createFolder db (some uid) nm parent newId now = .ok (db', node)) :
    WF db' := by
  obtain ⟨⟨hnd, hreach⟩, hoc⟩ := hWF
  obtain ⟨hnode, hdb⟩ := createFolder_ok_inv h
  subst hdb
  have hnodeid : node.id = newId := by rw [hnode]
  refine ⟨⟨?_, ?_⟩, ?_⟩
  · show (idsOf (db.nodes ++ [node])).Nodup
    rw [idsOf, List.map_append]
    rw [List.nodup_append]
    refine ⟨hnd, by simp, ?_⟩
    intro x hx hx'
    simp only [List.map_cons, List.map_nil, List.mem_singleton] at hx'
    subst hx'
    rw [hnodeid] at hx
    exact hfresh hx
  · intro n hn
    simp only at hn ⊢
    rw [List.length_append, List.length_cons, List.length_nil]
    rcases List.mem_append.1 hn with hn' | hn'
    · have hold := hreach n hn'
      obtain ⟨L, hw⟩ := (reachesRoot_iff _ _ _).1 hold
      have hw' := walkIds_append db.nodes node db.nodes.length n.parent_id
        L hw
      exact reachesRoot_mono ((reachesRoot_iff _ _ _).2 ⟨L, hw'⟩)
        (by omega)
    · rw [List.mem_singleton.1 hn']
      have hpar : node.parent_id = parent := by rw [hnode]
      rw [hpar]
      cases hp : parent with
      | none => exact reachesRoot_none _ _
      | some p =>
        obtain ⟨m, hmmem, hmid, _, _⟩ := hparent p hp
        have hfind : findNode db.nodes p = some m := by
          rw [← hmid]
          exact findNode_of_mem_nodup hnd hmmem
        have hfind' : findNode (db.nodes ++ [node]) p = some m :=
          findNode_append hfind
        have hmre := hreach m hmmem
        obtain ⟨L, hw⟩ := (reachesRoot_iff _ _ _).1 hmre
        have hw' := walkIds_append db.nodes node db.nodes.length
          m.parent_id L hw
        have := reachesRoot_step hfind'
          ((reachesRoot_iff _ _ _).2 ⟨L, hw'⟩)
        exact reachesRoot_mono this (by omega)
  · intro n hn p hp
    rcases List.mem_append.1 hn with hn' | hn'
    · obtain ⟨m, hmmem, hmid, hmo⟩ := hoc n hn' p hp
      exact ⟨m, List.mem_append_left _ hmmem, hmid, hmo⟩
    · rw [List.mem_singleton.1 hn'] at hp ⊢
      have hpar : node.parent_id = parent := by rw [hnode]
      have hown : node.owner_id = uid := by rw [hnode]
      rw [hpar] at hp
      obtain ⟨m, hmmem, hmid, hmo, _⟩ := hparent p hp
      refine ⟨m, List.mem_append_left _ hmmem, hmid, ?_⟩
      rw [hmo, hown]

/-- A successful folder move preserves well-formedness: the passed cycle
check guarantees the move target is outside the moved folder's subtree, so
every rewired chain still reaches the root. -/
theorem WF_move (db : DB) (uid id tgt now : Nat) (db' : DB) (hWF : WF db)
    (h : moveFolder db (some uid) id (some tgt) now = .ok db') :
    WF db' := by
  obtain ⟨⟨hnd, hreach⟩, hoc⟩ := hWF
  obtain ⟨fnode, tnode, hfol, hfty, hfown, htar, htty, htown, hne, hcc,
    hdb⟩ := moveFolder_ok_inv h
  subst hdb
  have htmem := (findNode_mem htar).1
  have htid : tnode.id = tgt := (findNode_mem htar).2
  -- the target's old chain
  obtain ⟨Lt, hwt⟩ := (reachesRoot_iff _ _ _).1 (hreach tnode htmem)
  -- the moved folder does not sit on it
  have hnotin : id ∉ Lt := by
    intro hmem
    have := walk_cc_at_length db.nodes hnd hoc htmem htown hwt hmem
    rw [htid] at this
    rw [this] at hcc
    cases hcc
  -- the target still reaches the root after the move
  have hfind_t' : findNode (reparent db.nodes id tgt now) tgt =
      some tnode := by
    rw [findNode_reparent_ne (fun hq => hne hq.symm) tgt now]
    exact htar
  have hwt_re : walkIds (reparent db.nodes id tgt now) Lt.length
      tnode.parent_id = some Lt :=
    walkIds_reparent_avoid db.nodes id tgt now Lt.length tnode.parent_id Lt
      (walkIds_exact db.nodes db.nodes.length tnode.parent_id Lt hwt)
      hnotin
  have hres : reachesRoot (reparent db.nodes id tgt now) (Lt.length + 1)
      (some tgt) = true :=
    reachesRoot_step hfind_t'
      ((reachesRoot_iff _ _ _).2 ⟨Lt, hwt_re⟩)
  have hlen_re : (reparent db.nodes id tgt now).length =
      db.nodes.length := by
    rw [reparent, List.length_map]
  have hnd_re : (idsOf (reparent db.nodes id tgt now)).Nodup := by
    rw [idsOf_reparent]
    exact hnd
  refine ⟨⟨hnd_re, ?_⟩, ?_⟩
  · intro n' hn'
    simp only at hn'
    obtain ⟨n, hn, hmap⟩ := List.mem_map.1 hn'
    by_cases hq : n.id = id
    · have hn'eq : n' =
          { n with parent_id := some tgt, updated_at := now } := by
        rw [← hmap, if_pos hq]
      rw [hn'eq]
      obtain ⟨L'', hw''⟩ := (reachesRoot_iff _ _ _).1
        (reachesRoot_mono hres (Nat.le_refl _))
      have := reachesRoot_compress (reparent db.nodes id tgt now) hw''
      rw [hlen_re] at this ⊢
      exact this
    · have hn'eq : n' = n := by rw [← hmap, if_neg hq]
      rw [hn'eq]
      obtain ⟨M, hwM⟩ := (reachesRoot_iff _ _ _).1 (hreach n hn)
      have hbig := walkIds_rewire db.nodes id tgt now (Lt.length + 1) hres
        db.nodes.length n.parent_id M hwM
      obtain ⟨L'', hw''⟩ := (reachesRoot_iff _ _ _).1 hbig
      have := reachesRoot_compress (reparent db.nodes id tgt now) hw''
      rw [hlen_re] at this ⊢
      exact this
  · intro n' hn' p hp
    simp only at hn'
    obtain ⟨n, hn, hmap⟩ := List.mem_map.1 hn'
    by_cases hq : n.id = id
    · have hn'eq : n' =
          { n with parent_id := some tgt, updated_at := now } := by
        rw [← hmap, if_pos hq]
      have hpt : p = tgt := by
        rw [hn'eq] at hp
        injection hp with hp
        exact hp.symm
      subst hpt
      have htne : ¬ tnode.id = id := by
        rw [htid]
        exact fun hq' => hne hq'.symm
      have hneq : n = fnode :=
        mem_id_unique hnd hn (findNode_mem hfol).1
          (hq.trans (findNode_mem hfol).2.symm)
      refine ⟨tnode, List.mem_map.2 ⟨tnode, htmem, by rw [if_neg htne]⟩,
        htid, ?_⟩
      rw [hn'eq]
      show tnode.owner_id = n.owner_id
      rw [htown, hneq, hfown]
    · have hn'eq : n' = n := by rw [← hmap, if_neg hq]
      rw [hn'eq] at hp ⊢
      obtain ⟨m, hmmem, hmid, hmo⟩ := hoc n hn p hp
      refine ⟨if m.id = id then
          { m with parent_id := some tgt, updated_at := now } else m,
        List.mem_map.2 ⟨m, hmmem, rfl⟩, ?_, ?_⟩
      · rw [reparent_head_id]
        exact hmid
      · show (if m.id = id then
            { m with parent_id := some tgt, updated_at := now }
            else m).owner_id = n.owner_id
        have howner : (if m.id = id then
            { m with parent_id := some tgt, updated_at := now }
            else m).owner_id = m.owner_id := by
          split <;> rfl
        rw [howner, hmo]

/-- A request that fails leaves the store untouched; a valid create or any
move keeps the store well-formed. -/
theorem WF_applyHOp (db : DB) (op : HOp) (hWF : WF db)
    (hg : GoodHOp db op) : WF (applyHOp db op) := by
  cases op with
  | create u nm parent newId now =>
    simp only [GoodHOp] at hg
    show WF (match createFolder db u nm parent newId now with
      | .ok r => r.1
      | .error _ => db)
    cases hc : createFolder db u nm parent newId now with
    | error e => exact hWF
    | ok r =>
      cases u with
      | none => simp [createFolder] at hc
      | some uid =>
        obtain ⟨hfresh, hparent⟩ := hg uid rfl
        obtain ⟨db', node⟩ := r
        exact WF_create db uid nm parent newId now db' node hWF hfresh
          hparent hc
  | move u i tg t =>
    show WF (match moveFolder db u i tg t with
      | .ok db' => db'
      | .error _ => db)
    cases hm : moveFolder db u i tg t with
    | error e => exact hWF
    | ok db' =>
      cases u with
      | none => simp [moveFolder] at hm
      | some uid =>
        cases tg with
        | none => simp [moveFolder] at hm
        | some tgt => exact WF_move db uid i tgt t db' hWF hm

/-- Well-formedness is preserved along any disciplined request sequence. -/
theorem WF_applyHOps (db : DB) (ops : List HOp) (hWF : WF db)
    (hg : GoodHOps db ops) : WF (applyHOps db ops) := by
  induction ops generalizing db with
  | nil => exact hWF
  | cons op ops ih =>
    obtain ⟨h1, h2⟩ := hg
    exact ih (applyHOp db op) (WF_applyHOp db op hWF h1) h2

/-- Claim C2 (amended): on stores that additionally satisfy ownership
closure — every non-null `parent_id` references an existing node of the same
owner, the spec's data-model invariant, which `createFolder` itself never
checks — a `moveFolder` call on owned folders whose target equals the moved
folder or lies in its subtree fails with `INVALID_MOVE` (400) before any
write; consequently any sequence of folder-creates (with fresh ids and
owned-folder parents) and folder-moves keeps every node's parent chain
terminating at the null root within total-node-count steps. -/
theorem moveFolder_acyclicity_invariant :
    (∀ (db : DB) (uid id target now : Nat) (fnode tnode : Node),
      WF db →
      findNode db.nodes id = some fnode → fnode.type = "folder" →
      fnode.owner_id = uid →
      findNode db.nodes target = some tnode → tnode.type = "folder" →
      tnode.owner_id = uid →
      (target = id ∨ isDescendant db.nodes id target = true) →
      errCodeOf (moveFolder db (some uid) id (some target) now) =
        some "INVALID_MOVE" ∧
      errStatusOf (moveFolder db (some uid) id (some target) now) =
        some 400) ∧
    (∀ (db : DB) (ops : List HOp), WF db → GoodHOps db ops →
      Terminating (applyHOps db ops)) := by
  constructor
  · intro db uid id target now fnode tnode hWF hfol hfty hfown htar htty
      htown hbad
    exact moveFolder_rejects db uid id target now fnode tnode hWF.1 hWF.2
      hfol hfty hfown htar htty htown hbad
  · intro db ops hWF hg
    exact (WF_applyHOps db ops hWF hg).1

/-- Claim C2, counterexample to the claim as stated: `crossDb` is acyclic
(every parent chain terminates at the null root within node-count steps) and
both folder 1 and its descendant folder 3 belong to the acting account 1,
yet the move of 1 into 3 succeeds instead of failing with `INVALID_MOVE` —
the cycle check only scans the actor's own rows and misses the chain through
account 2's folder — and afterwards node 1's parent chain no longer reaches
the root. -/
theorem moveFolder_cycle_counterexample :
    Terminating crossDb ∧
    findNode crossDb.nodes 1 = some crossF ∧ crossF.type = "folder" ∧
    crossF.owner_id = 1 ∧
    findNode crossDb.nodes 3 = some crossH ∧ crossH.type = "folder" ∧
    crossH.owner_id = 1 ∧
    isDescendant crossDb.nodes 1 3 = true ∧
    moveFolder crossDb (some 1) 1 (some 3) 99 = .ok crossDbMoved ∧
    reachesRoot crossDbMoved.nodes crossDbMoved.nodes.length (some 1) =
      false := by
  decide

/-- Concrete instance of `moveFolder_acyclicity_invariant`: moving folder 1
of `pairDb` into its child 2 is rejected with `INVALID_MOVE`, and the
`pairOps` sequence keeps the store's parent chains terminating. -/
theorem moveFolder_acyclicity_invariant_witness :
    (WF pairDb ∧ findNode pairDb.nodes 1 = some pairF ∧
      pairF.type = "folder" ∧ pairF.owner_id = 1 ∧
      findNode pairDb.nodes 2 = some pairA ∧ pairA.type = "folder" ∧
      pairA.owner_id = 1 ∧ isDescendant pairDb.nodes 1 2 = true ∧
      errCodeOf (moveFolder pairDb (some 1) 1 (some 2) 9) =
        some "INVALID_MOVE" ∧
      errStatusOf (moveFolder pairDb (some 1) 1 (some 2) 9) = some 400) ∧
    (WF pairDb ∧ GoodHOps pairDb pairOps ∧
      Terminating (applyHOps pairDb pairOps)) := by
  have hgood : GoodHOps pairDb pairOps := by
    refine ⟨?_, trivial, trivial⟩
    intro uid h
    injection h with h
    subst h
    refine ⟨by decide, ?_⟩
    intro p hp
    injection hp with hp
    subst hp
    exact ⟨pairA, by decide, by decide, by decide, by decide⟩
  refine ⟨⟨by decide, by decide, by decide, by decide, by decide, by decide,
    by decide, by decide, ?_, ?_⟩, by decide, hgood, ?_⟩
  · exact (moveFolder_acyclicity_invariant.1 pairDb 1 1 2 9 pairF pairA
      (by decide) (by decide) (by decide) (by decide) (by decide)
      (by decide) (by decide) (Or.inr (by decide))).1
  · exact (moveFolder_acyclicity_invariant.1 pairDb 1 1 2 9 pairF pairA
      (by decide) (by decide) (by decide) (by decide) (by decide)
      (by decide) (by decide) (Or.inr (by decide))).2
  · exact moveFolder_acyclicity_invariant.2 pairDb pairOps (by decide)
      hgood

end CloudNest
